import Mathlib

/-!
Verification development for the CPZ_Machine Z-machine interpreter
(`code.py`, `zmachine_opcodes.py`).

The Python source is shallowly embedded: byte memory becomes a size plus a
contents function, Python integers become `Int` (they are unbounded and
signed), bytearray values become `Nat`, Python exceptions become
`Except Halted`, and `sys.exit` becomes the `Halted.exit` signal (a
`SystemExit` is not an `Exception`, so it escapes the interpreter's
`try/except Exception` blocks).  The module-level constants correspond to the
`h_type = 3` configuration that the source fixes at import time.
-/

namespace CPZ

/-- `h_type` is fixed to 3 in `zmachine_opcodes.py`, selecting the V3 constants. -/
def address_scaler : Nat := 2

/-- `max_properties` for V3 (`0x20`). -/
def max_properties : Nat := 0x20

/-- `object_size` for V3 (9-byte object records). -/
def object_size : Nat := 9

/-- `object_parent` field offset (V3). -/
def object_parent : Nat := 4

/-- `object_next` field offset (V3). -/
def object_next : Nat := 5

/-- `object_child` field offset (V3). -/
def object_child : Nat := 6

/-- `property_offset` (V3). -/
def property_offset : Nat := 7

/-- `h_words_offset`: header address of the dictionary pointer word. -/
def h_words_offset : Nat := 8

/-- The story memory: `ZMachine.memory`, a Python `bytearray`.
`size` is `len(self.memory)`; `get` holds the byte contents (only
indices `< size` are ever meaningful). -/
structure Mem where
  size : Nat
  get : Nat → Nat

/-- A memory is well formed when every in-range cell holds a byte value,
as a Python `bytearray` guarantees. -/
def Mem.Wf (m : Mem) : Prop := ∀ a, a < m.size → m.get a < 256

/-- Python sequence indexing for an index already checked `< size`:
a negative index counts from the end of the bytearray.  All addresses the
claims exercise are non-negative. -/
def Mem.atIdx (m : Mem) (a : Int) : Nat :=
  if 0 ≤ a then m.get a.toNat else m.get ((m.size : Int) + a).toNat

/-- Destructive update at a Python index (same indexing convention). -/
def Mem.setIdx (m : Mem) (a : Int) (v : Nat) : Mem :=
  if 0 ≤ a then { m with get := Function.update m.get a.toNat v }
  else { m with get := Function.update m.get ((m.size : Int) + a).toNat v }

/-- `ZMachine.read_byte`: returns 0 for addresses at or beyond the end of
memory.  (For `a < -size` the source would raise `IndexError`; no claim
reaches that case, and our theorems assume `0 ≤ a` where it matters.) -/
def Mem.read_byte (m : Mem) (a : Int) : Nat :=
  if a < (m.size : Int) then m.atIdx a else 0

/-- `ZMachine.read_word`: big-endian 16-bit read; returns 0 when
`addr + 1` is not below the end of memory. -/
def Mem.read_word (m : Mem) (a : Int) : Nat :=
  if a + 1 < (m.size : Int) then (m.atIdx a <<< 8) ||| m.atIdx (a + 1) else 0

/-- `ZMachine.write_byte`: the value is masked with `0xFF`; the write is
silently dropped when `addr < len(memory)` fails.  There is no check against
the static-memory base. -/
def Mem.write_byte (m : Mem) (a : Int) (v : Int) : Mem :=
  if a < (m.size : Int) then m.setIdx a (v % 256).toNat else m

/-- `ZMachine.write_word`: big-endian 16-bit write, high byte first, silently
dropped when `addr + 1 < len(memory)` fails.  (`(value >> 8) & 0xFF` on a
Python int is `(v / 256) % 256` with floor division, which for the
non-negative divisor 256 agrees with `Int.ediv`/`Int.emod`.) -/
def Mem.write_word (m : Mem) (a : Int) (v : Int) : Mem :=
  if a + 1 < (m.size : Int) then (m.setIdx a ((v / 256) % 256).toNat).setIdx (a + 1) (v % 256).toNat
  else m

/-- The two ways a Python-level event can stop normal execution of an opcode:
an uncaught exception (caught again by `execute_instruction`, which then
stops the game), or `sys.exit` (which terminates the whole interpreter). -/
inductive Halted where
  | exn : Halted
  | exit : Halted
deriving DecidableEq, Repr

/-- `Frame` from `zmachine_opcodes.py`.  The Python field `variable` is named
`var_slot` here (`variable` is a Lean keyword); it is never read by the
interpreter.  Locals and stack cells are Python ints. -/
structure Frame where
  return_pointer : Int := 0
  var_slot : Int := 0
  result_var : Nat := 0
  ctype : Nat := 0
  arg_count : Nat := 0
  count : Nat := 0
  local_vars : List Int := List.replicate 15 0
  data_stack : List Int := []
deriving Repr

/-- The interpreter state: the fields of `ZMachine` and `ZProcessor` that the
Z-machine core reads or writes.  `call_stack` keeps the most recent frame at
the head (Python appends at the end and uses `[-1]`); `data_stack` likewise
keeps the top of the evaluation stack at the head.  Display-only fields
(`theme`, cursor coordinates, ...) are omitted; text sent to the screen is
recorded in `output` and error diagnostics in `errors`, newest first. -/
structure ZMachineSt where
  memory : Mem
  pc : Int := 0
  call_stack : List Frame := []
  game_running : Bool := true
  variables_addr : Int := 0
  object_table_addr : Int := 0
  dictionary_size : Nat := 0
  dictionary_offset : Int := 0
  story_len : Nat := 0
  z_version : Nat := 3
  instruction_count : Nat := 0
  opcode : Nat := 0
  output : List String := []
  errors : List String := []
  seeds : List Int := []

/-- `ZMachine.print_text`, reduced to its observable effect. -/
def ZMachineSt.print_text (s : ZMachineSt) (t : String) : ZMachineSt :=
  { s with output := t :: s.output }

/-- `ZMachine.print_error`: prints the diagnostic on the console and the
screen; it does not by itself stop the game. -/
def ZMachineSt.print_error (s : ZMachineSt) (msg : String) : ZMachineSt :=
  { s with errors := msg :: s.errors, output := ("*** ERROR: " ++ msg) :: s.output }

/-- `ZProcessor.read_variable`.  Variable 0 pops the current frame's
evaluation stack — on an empty stack it reports an error, stops the game and
returns 0 (no exception).  1..15 reads a local, ≥ 16 reads a global word.
`Halted.exn` models the `IndexError` the source would raise when the call
stack itself is empty. -/
def read_variable (s : ZMachineSt) (var_num : Int) : Except Halted (Int × ZMachineSt) :=
  if var_num = 0 then
    match s.call_stack with
    | [] => .error .exn
    | f :: rest =>
      match f.data_stack with
      | [] =>
        .ok (0, { s.print_error "data stack is empty in read_variable()" with game_running := false })
      | v :: ds => .ok (v, { s with call_stack := { f with data_stack := ds } :: rest })
  else if var_num ≤ 15 then
    match s.call_stack with
    | [] => .error .exn
    | f :: _ =>
      match f.local_vars.get? (var_num - 1).toNat with
      | none => .error .exn
      | some v => .ok (v, s)
  else
    .ok ((s.memory.read_word (s.variables_addr + (var_num - 16) * 2) : Int), s)

/-- `ZProcessor.write_variable`.  The value is first masked with `0xFFFF`
(on a Python int this is `emod 0x10000`). -/
def write_variable (s : ZMachineSt) (var_num : Int) (value : Int) : Except Halted ZMachineSt :=
  let value := value % 65536
  if var_num = 0 then
    match s.call_stack with
    | [] => .error .exn
    | f :: rest => .ok { s with call_stack := { f with data_stack := value :: f.data_stack } :: rest }
  else if var_num ≤ 15 then
    match s.call_stack with
    | [] => .error .exn
    | f :: rest =>
      .ok { s with call_stack := { f with local_vars := f.local_vars.set (var_num - 1).toNat value } :: rest }
  else
    .ok { s with memory := s.memory.write_word (s.variables_addr + (var_num - 16) * 2) value }

/-- `ZProcessor.store_result`: consumes one byte at the PC as the result
variable and writes the value there. -/
def store_result (s : ZMachineSt) (value : Int) : Except Halted ZMachineSt :=
  let result_var := s.memory.read_byte s.pc
  write_variable { s with pc := s.pc + 1 } (result_var : Int) value

/-- `ZProcessor.return_from_routine`: pops the current frame, restores the
caller's PC, and stores the return value through `store_result`.  Popping the
last frame reports an error and stops the game without storing. -/
def return_from_routine (s : ZMachineSt) (value : Int) : Except Halted ZMachineSt :=
  match s.call_stack with
  | f :: rest =>
    if rest.isEmpty then
      .ok { s.print_error "call stack is empty" with call_stack := rest, game_running := false }
    else
      store_result { s with call_stack := rest, pc := f.return_pointer } value
  | [] =>
    store_result { s with game_running := false } value

/-- `op_rtrue`. -/
def op_rtrue (_operands : List Int) (s : ZMachineSt) : Except Halted ZMachineSt :=
  return_from_routine s 1

/-- `op_rfalse`. -/
def op_rfalse (_operands : List Int) (s : ZMachineSt) : Except Halted ZMachineSt :=
  return_from_routine s 0

/-- `ZProcessor.branch`: reads the one- or two-byte branch suffix at the PC
and either returns (offset 0/1), jumps, or falls through, exactly as the
source does. -/
def branch (s : ZMachineSt) (condition : Bool) : Except Halted ZMachineSt :=
  let branch_byte := s.memory.read_byte s.pc
  let s1 : ZMachineSt := { s with pc := s.pc + 1 }
  let branch_on_true := if branch_byte &&& 0x80 = 0 then !condition else condition
  if branch_byte &&& 0x40 = 0 then
    let second_byte := s1.memory.read_byte s1.pc
    let s2 : ZMachineSt := { s1 with pc := s1.pc + 1 }
    let bo : Nat := ((branch_byte &&& 0x3F) <<< 8) ||| second_byte
    let bo : Nat := if bo &&& 0x2000 ≠ 0 then bo ||| 0xC000 else bo
    let branch_offset : Int := if 0 < bo ∧ bo &&& 0x8000 ≠ 0 then (bo : Int) - 0x10000 else (bo : Int)
    if branch_on_true then
      if branch_offset = 0 then op_rfalse [] s2
      else if branch_offset = 1 then op_rtrue [] s2
      else .ok { s2 with pc := s2.pc + branch_offset - 2 }
    else .ok s2
  else
    let branch_offset : Int := ((branch_byte &&& 0x3F : Nat) : Int)
    if branch_on_true then
      if branch_offset = 0 then op_rfalse [] s1
      else if branch_offset = 1 then op_rtrue [] s1
      else .ok { s1 with pc := s1.pc + branch_offset - 2 }
    else .ok s1

/-- `op_quit`: stop the game. -/
def op_quit (_operands : List Int) (s : ZMachineSt) : Except Halted ZMachineSt :=
  .ok { s with game_running := false }

/-- `op_new_line`. -/
def op_new_line (_operands : List Int) (s : ZMachineSt) : Except Halted ZMachineSt :=
  .ok (s.print_text "\n")

/-- The source's signed reinterpretation idiom
`x if x < 32768 else x - 65536`, applied to several operands. -/
def pyToSigned (x : Int) : Int := if x < 32768 then x else x - 65536

/-- `op_div`: divisor 0 logs an error and produces 32767; otherwise
`int(a / b)` truncates toward zero (`Int.tdiv`) and the result is masked
with `0xFFFF`. -/
def op_div (operands : List Int) (s : ZMachineSt) : Except Halted ZMachineSt :=
  if operands.length ≥ 2 then
    let a := pyToSigned (operands.getD 0 0)
    let b := pyToSigned (operands.getD 1 0)
    if b = 0 then
      store_result (s.print_error "divide by zero error: Result set to 32767 (0x7fff).") 32767
    else
      store_result s ((Int.tdiv a b) % 65536)
  else .ok s

/-- `op_mod`: divisor 0 logs an error and produces 0; otherwise the raw
Python `%` of the unsigned operands, masked with `0xFFFF`. -/
def op_mod (operands : List Int) (s : ZMachineSt) : Except Halted ZMachineSt :=
  if operands.length ≥ 2 then
    if operands.getD 1 0 = 0 then
      store_result (s.print_error "mod by zero error: Result set to 0.") 0
    else
      store_result s ((operands.getD 0 0 % operands.getD 1 0) % 65536)
  else .ok s

/-- `op_dec_chk`: decrement the variable named by operand 0, then branch when
the (raw, unmasked) decremented value is below operand 1.  Note: no signed
16-bit reinterpretation is applied to either side. -/
def op_dec_chk (operands : List Int) (s : ZMachineSt) : Except Halted ZMachineSt := do
  if operands.length ≥ 2 then
    let (result, s) ← read_variable s (operands.getD 0 0)
    let result := result - 1
    let s ← write_variable s (operands.getD 0 0) result
    branch s (decide (result < operands.getD 1 0))
  else .ok s

/-- `op_inc_chk`: increment the variable named by operand 0, then branch when
the (raw, unmasked) incremented value exceeds operand 1. -/
def op_inc_chk (operands : List Int) (s : ZMachineSt) : Except Halted ZMachineSt := do
  if operands.length ≥ 2 then
    let (result, s) ← read_variable s (operands.getD 0 0)
    let result := result + 1
    let s ← write_variable s (operands.getD 0 0) result
    branch s (decide (result > operands.getD 1 0))
  else .ok s

/-- `op_random`.  `randint` is the injected host PRNG draw
(`random.randint(1, range)`); a seed request is recorded in `seeds`
(CPython's `random.seed(n)` seeds with the absolute value of `n`, so the
negative-range case records `|range|`).  With range 0 the source seeds and
then evaluates `f"random() returns {result}"` with `result` never assigned:
an `UnboundLocalError`, modelled as `Halted.exn`. -/
def op_random (randint : Int → Int → Int) (operands : List Int) (s : ZMachineSt) :
    Except Halted ZMachineSt :=
  match operands with
  | [] => .error .exn
  | range :: _ =>
    if range < 0 then
      store_result { s with seeds := range.natAbs :: s.seeds } 0
    else if range > 0 then
      store_result s (randint 1 range)
    else
      .error .exn

/-- `op_storew`: exits the interpreter (`sys.exit`) when the base address
operand exceeds the story length — the offset is not included in the check
and the static-memory base plays no role — and otherwise writes the word. -/
def op_storew (operands : List Int) (s : ZMachineSt) : Except Halted ZMachineSt :=
  let addr := operands.getD 0 0
  let offset := operands.getD 1 0
  let value := operands.getD 2 0
  let addr2 := addr + offset * 2
  if addr > (s.story_len : Int) then
    .error .exit
  else
    .ok { s with memory := s.memory.write_word addr2 value }

/-- `op_storeb`: writes the byte with no range or static-memory check at
all. -/
def op_storeb (operands : List Int) (s : ZMachineSt) : Except Halted ZMachineSt :=
  .ok { s with memory := s.memory.write_byte (operands.getD 0 0 + operands.getD 1 0) (operands.getD 2 0) }

/-- `op_push`. -/
def op_push (operands : List Int) (s : ZMachineSt) : Except Halted ZMachineSt :=
  match s.call_stack with
  | [] => .error .exn
  | f :: rest => .ok { s with call_stack := { f with data_stack := operands.getD 0 0 :: f.data_stack } :: rest }

/-- `ZProcessor.get_object_address`:
`object_table_addr + (max_properties - 1) * 2 + (obj - 1) * object_size`. -/
def get_object_address (s : ZMachineSt) (obj : Int) : Int :=
  s.object_table_addr + ((max_properties : Int) - 1) * 2 + (obj - 1) * (object_size : Int)

/-- `ZProcessor.read_object`: read the parent/next/child byte of the object
record at address `objp`. -/
def read_object (m : Mem) (objp : Int) (field : Nat) : Nat :=
  if field = object_parent then m.read_byte (objp + (object_parent : Int))
  else if field = object_next then m.read_byte (objp + (object_next : Int))
  else m.read_byte (objp + (object_child : Int))

/-- `ZProcessor.write_object`. -/
def write_object (m : Mem) (objp : Int) (field : Nat) (value : Int) : Mem :=
  if field = object_parent then m.write_byte (objp + (object_parent : Int)) value
  else if field = object_next then m.write_byte (objp + (object_next : Int)) value
  else m.write_byte (objp + (object_child : Int)) value

/-- The byte offset within an object record that `read_object` and
`write_object` select for a field code (any code other than
`object_parent`/`object_next` falls through to the child byte, as in the
source's if/elif/else). -/
def fieldOfs (field : Nat) : Int :=
  if field = object_parent then (object_parent : Int)
  else if field = object_next then (object_next : Int)
  else (object_child : Int)

/-- The `while True` walk in `remove_object` that looks for the predecessor
of `obj` in a sibling chain: starting from `child`, follow `next` pointers
until the next object is `obj`, and return the predecessor's object number
(the source keeps its address `childp`).  The source loop has no exit when
`obj` never appears; `none` models that divergence (fuel exhausted). -/
def findPrevChild (s : ZMachineSt) (obj : Int) : Int → Nat → Option Int
  | _, 0 => none
  | child, fuel + 1 =>
    let childp := get_object_address s child
    let next := read_object s.memory childp object_next
    if (next : Int) = obj then some child
    else findPrevChild s obj (next : Int) fuel

/-- `ZProcessor.remove_object`: unlink `obj` from its parent's child chain
(doing nothing when it has no parent), then zero its parent and next
pointers.  `fuel` bounds the source's unbounded chain walk. -/
def remove_object (s : ZMachineSt) (obj : Int) (fuel : Nat) : Option ZMachineSt :=
  let objp := get_object_address s obj
  let parent := read_object s.memory objp object_parent
  if (parent : Int) = 0 then some s
  else do
    let parentp := get_object_address s (parent : Int)
    let child := read_object s.memory parentp object_child
    let m1 ←
      if (child : Int) = obj then
        some (write_object s.memory parentp object_child (read_object s.memory objp object_next : Int))
      else do
        let prev ← findPrevChild s obj (child : Int) fuel
        some (write_object s.memory (get_object_address s prev) object_next
          (read_object s.memory objp object_next : Int))
    let m2 := write_object m1 objp object_parent 0
    let m3 := write_object m2 objp object_next 0
    some { s with memory := m3 }

/-- `op_insert_obj`: remove object 1 from its previous parent, make object 2
its parent, and link it in at the front of object 2's child chain.  When
object 2 had no children the `next` pointer of object 1 is left untouched. -/
def op_insert_obj (operands : List Int) (s : ZMachineSt) (fuel : Nat) : Option ZMachineSt := do
  let obj1 := operands.getD 0 0
  let obj2 := operands.getD 1 0
  let obj1p := get_object_address s obj1
  let obj2p := get_object_address s obj2
  let s ← remove_object s obj1 fuel
  let m := write_object s.memory obj1p object_parent obj2
  let child2 := read_object m obj2p object_child
  let m := write_object m obj2p object_child obj1
  let m := if (child2 : Int) ≠ 0 then write_object m obj1p object_next (child2 : Int) else m
  some { s with memory := m }

/-- `v3_lookup_table`, as ASCII codes: lowercase, uppercase, and the
punctuation row `" \n0123456789.,!?_#'\"/\\-:()"`. -/
def v3_lookup_table : List (List Nat) :=
  [ [97, 98, 99, 100, 101, 102, 103, 104, 105, 106, 107, 108, 109, 110, 111, 112,
     113, 114, 115, 116, 117, 118, 119, 120, 121, 122],
    [65, 66, 67, 68, 69, 70, 71, 72, 73, 74, 75, 76, 77, 78, 79, 80,
     81, 82, 83, 84, 85, 86, 87, 88, 89, 90],
    [32, 10, 48, 49, 50, 51, 52, 53, 54, 55, 56, 57, 46, 44, 33, 63,
     95, 35, 39, 34, 47, 92, 45, 58, 40, 41] ]

/-- The double loop in `encode_string` that scans the three alphabet rows for
a character; the scan does not break, so the last hit wins (the rows are
disjoint, so there is at most one hit).  `(2, 0)` is the not-found sentinel
(which also matches a literal space, row 2 slot 0). -/
def charSearch (c : Nat) : Nat × Nat :=
  (List.range 3).foldl (fun acc i =>
    (List.range 26).foldl (fun acc2 j =>
      if (v3_lookup_table.getD i []).getD j 0 = c then (i, j) else acc2) acc) (2, 0)

/-- The per-character body of `encode_string` (the `h_type = 3` branch; the
source's `h_type < 3` branch is dead under this build's configuration).
Codes accumulate into a 9-slot buffer guarded by `codes_count < 9`.  When a
character resolves to `(table, code) = (2, 0)` — a space or a character
outside every row — the source evaluates `s[pos] >> 5` on a one-character
string and raises `TypeError`; that is `Halted.exn`. -/
def encodeChars : List Nat → List Nat → Except Halted (List Nat)
  | codes, [] => .ok codes
  | codes, c :: rest =>
    let tc := charSearch c
    let codes := if tc.1 ≠ 0 ∧ codes.length < 9 then codes ++ [tc.1 + 3] else codes
    let codes := if codes.length < 9 then codes ++ [tc.2 + 6] else codes
    if tc.1 = 2 ∧ tc.2 = 0 then .error .exn
    else encodeChars codes rest

/-- `ZProcessor.encode_string` for V3: encode the first `len` characters,
pad the code buffer to 9 with shift-5 codes, pack three words and set the
end bit on the second word. -/
def encode_string (len : Nat) (s : List Nat) : Except Halted (List Nat) := do
  if len > s.length then .error .exn else
  let codes ← encodeChars [] (s.take len)
  let codes := codes ++ List.replicate (9 - codes.length) 5
  .ok [ (codes.getD 0 0) <<< 10 ||| (codes.getD 1 0) <<< 5 ||| codes.getD 2 0,
        ((codes.getD 3 0) <<< 10 ||| (codes.getD 4 0) <<< 5 ||| codes.getD 5 0) ||| 0x8000,
        (codes.getD 6 0) <<< 10 ||| (codes.getD 7 0) <<< 5 ||| codes.getD 8 0 ]

/-- The `while chop > 0` binary-chop loop of `find_word`.  `fuel` bounds the
iteration count (the chop value halves every round, so `chop + 2` rounds
always suffice).  Returns the dictionary offset of a match, or 0. -/
def fwLoop (m : Mem) (dsize doff : Nat) (buff : List Nat) (entry_size : Nat) :
    Nat → Nat → Nat → Nat
  | 0, _, _ => 0
  | fuel + 1, chop, word_index =>
    if chop = 0 then 0
    else
      let chop := chop / 2
      let word_index := if word_index > dsize - 1 then dsize - 1 else word_index
      let offset := doff + word_index * entry_size
      let status1 : Int := (buff.getD 0 0 : Int) - m.read_word ((offset : Int) + 0)
      let status2 : Int := (buff.getD 1 0 : Int) - m.read_word ((offset : Int) + 2)
      let _status3 : Int := (buff.getD 2 0 : Int) - m.read_word ((offset : Int) + 4)
      if status1 = 0 ∧ status2 = 0 then offset
      else if status1 > 0 then
        fwLoop m dsize doff buff entry_size fuel chop
          (if word_index + chop ≥ dsize then dsize - 1 else word_index + chop)
      else
        fwLoop m dsize doff buff entry_size fuel chop (word_index - chop)

/-- `ZProcessor.find_word`: encode the token and binary-chop the dictionary.
(`status3` is computed but ignored for `h_type < 4`; the linear-search branch
for a negative entry count is unreachable because `dictionary_size` comes
from an unsigned `read_word`.)  The Nat subtraction in `word_index - chop`
matches the source, which clamps a negative index back to 0. -/
def find_word (m : Mem) (dsize doff : Nat) (token : List Nat) (chop entry_size : Nat) :
    Except Halted Nat := do
  if dsize = 0 then .ok 0 else
  let buff ← encode_string token.length token
  if dsize > 0 then
    .ok (fwLoop m dsize doff buff entry_size (chop + 2) chop (chop - 1))
  else
    .ok 0

/-- The chop-size loop in `tokenize_line`: starting from
`word_index = dictionary_size / 2` and `chop = 1`, double the chop and halve
the index until the index reaches 0.  (The source mixes float and int
division, but halving and truncating exact binary floats agrees with
iterated floor division.) -/
def chopGo : Nat → Nat → Nat → Nat
  | 0, _, chop => chop * 2
  | fuel + 1, wi, chop =>
    let c := chop * 2
    let w := wi / 2
    if w = 0 then c else chopGo fuel w c

/-- The computed binary-chop start value for a dictionary of `dsize` words. -/
def calcChop (dsize : Nat) : Nat := chopGo (dsize + 1) (dsize / 2) 1

/-- The length scan of `tokenize_line` for `h_type ≤ 4`: count bytes at
`char_buf` until a zero byte (reads past the end of memory return 0, so
`size + 1` steps always reach a zero for a non-negative base). -/
def scanZero (m : Mem) (base : Int) : Nat → Nat → Nat
  | acc, 0 => acc
  | acc, fuel + 1 =>
    if m.read_byte (base + (acc : Int)) ≠ 0 then scanZero m base (acc + 1) fuel else acc

/-- `re.split` on a character class: split the buffer at every delimiter
character, keeping empty tokens (the source's class also has no regex
metacharacter issues for ordinary separator bytes). -/
def splitTokens (delims : List Nat) : List Nat → List (List Nat)
  | [] => [[]]
  | c :: rest =>
    let r := splitTokens delims rest
    if delims.contains c then [] :: r
    else (c :: r.headD []) :: r.tail

/-- Python `str.find`: index of the first occurrence of `tok` in the scanned
list, or -1. -/
def findSub (tok : List Nat) : List Nat → Nat → Int
  | [], i => if tok.isPrefixOf ([] : List Nat) then (i : Int) else -1
  | b :: bs, i => if tok.isPrefixOf (b :: bs) then (i : Int) else findSub tok bs (i + 1)

/-- `buff.find(token)` from the entry-write loop. -/
def pyFind (buff tok : List Nat) : Int := findSub tok buff 0

/-- The token loop of `tokenize_line`: for every token look the word up in
the (current) memory's dictionary, and while `words <= max_tokens` write a
4-byte parse entry at `token_buf + 2 + 4*words`; the entry holds the
dictionary offset big-endian, the token length, and `buff.find(token)`. -/
def entryLoop (dsize doff : Nat) (token_buf : Int) (chop entry_size max_tokens : Nat)
    (buff : List Nat) : List (List Nat) → Mem → Nat → Except Halted (Mem × Nat)
  | [], m, words => .ok (m, words)
  | token :: rest, m, words => do
    let word ← find_word m dsize doff token chop entry_size
    if words ≤ max_tokens then
      let m := m.write_byte (2 + token_buf + (words : Int) * 4 + 0) ((word >>> 8 : Nat) : Int)
      let m := m.write_byte (2 + token_buf + (words : Int) * 4 + 1) ((word &&& 0xff : Nat) : Int)
      let m := m.write_byte (2 + token_buf + (words : Int) * 4 + 2) (token.length : Int)
      let m := m.write_byte (2 + token_buf + (words : Int) * 4 + 3) (pyFind buff token)
      entryLoop dsize doff token_buf chop entry_size max_tokens buff rest m (words + 1)
    else
      entryLoop dsize doff token_buf chop entry_size max_tokens buff rest m words

/-- `ZProcessor.tokenize_line` (`h_type = 3` paths).  After the loop the
first parse-buffer byte is overwritten with the constant 59 and the second
with the token count.  An empty dictionary makes the source reference the
never-assigned `chop` (`UnboundLocalError`), hence `Halted.exn`. -/
def tokenize_line (s : ZMachineSt) (char_buf token_buf dictionary : Int) :
    Except Halted ZMachineSt := do
  let slen := scanZero s.memory char_buf 0 (s.memory.size + 1)
  let buff := (List.range slen).map (fun i => s.memory.read_byte (char_buf + (i : Int)))
  let dictp := s.memory.read_word dictionary
  let count := s.memory.read_byte (dictp : Int)
  let dictp := dictp + 1
  let delims := (List.range count).map (fun i => s.memory.read_byte ((dictp : Int) + (i : Int)))
  let dictp := dictp + count
  let entry_size := s.memory.read_byte (dictp : Int)
  let dictp := dictp + 1
  let dsize := s.memory.read_word (dictp : Int)
  let doff := dictp + 2
  let delims := delims ++ [32, 9, 10, 13, 12, 46, 44, 63]
  if dsize = 0 then .error .exn else
  let chop := calcChop dsize
  let max_tokens := s.memory.read_byte token_buf
  let tokens := splitTokens delims buff
  let mw ← entryLoop dsize doff token_buf chop entry_size max_tokens buff tokens s.memory 0
  let m := mw.1.write_byte token_buf 59
  let m := m.write_byte (token_buf + 1) (mw.2 : Int)
  .ok { s with memory := m, dictionary_size := dsize, dictionary_offset := (doff : Int) }

/-- Python `int.to_bytes(2, 'big')`: two big-endian bytes; raises
`OverflowError` for values outside `[0, 2^16)`. -/
def toBytes2 (v : Int) : Except Halted (List Nat) :=
  if 0 ≤ v ∧ v < 65536 then .ok [v.toNat / 256, v.toNat % 256] else .error .exn

/-- Python `int.to_bytes(1)`. -/
def toBytes1 (v : Nat) : Except Halted (List Nat) :=
  if v < 256 then .ok [v] else .error .exn

/-- Python `int.from_bytes(bs)` (big-endian default); `from_bytes(b'')` is 0. -/
def fromBytes (bs : List Nat) : Nat := bs.foldl (fun acc b => acc * 256 + b) 0

/-- Serialize a list of 16-bit words, two big-endian bytes each. -/
def serializeWords : List Int → Except Halted (List Nat)
  | [] => .ok []
  | v :: rest => do
    let b ← toBytes2 v
    let r ← serializeWords rest
    .ok (b ++ r)

/-- Modelled from the spec: `Frame.serialize` is called by
`ZMachine.save_game` but is missing from the source.  Spec §4.8 lists the
frame-record fields in order — return PC, result variable, argument count,
locals count, 15 local words, evaluation-stack depth, evaluation-stack
words — with multi-byte values big-endian (one byte for the three small
counters, two for each word). -/
def Frame.serialize (f : Frame) : Except Halted (List Nat) := do
  let rp ← toBytes2 f.return_pointer
  let rv ← toBytes1 f.result_var
  let ac ← toBytes1 f.arg_count
  let lc ← toBytes1 f.count
  let locals ← serializeWords f.local_vars
  let depth ← toBytes2 (f.data_stack.length : Int)
  let stack ← serializeWords f.data_stack
  .ok (rp ++ rv ++ ac ++ lc ++ locals ++ depth ++ stack)

/-- Big-endian word at byte index `i` of a frame record. -/
def wordAt (bs : List Nat) (i : Nat) : Nat := fromBytes [bs.getD i 0, bs.getD (i + 1) 0]

/-- Modelled from the spec: `Frame.unserialize`, the inverse reader for the
§4.8 frame record (`Frame()` defaults fill the fields the record does not
carry). -/
def Frame.unserialize (bs : List Nat) : Frame :=
  { return_pointer := (wordAt bs 0 : Int)
    result_var := bs.getD 2 0
    arg_count := bs.getD 3 0
    count := bs.getD 4 0
    local_vars := (List.range 15).map (fun i => (wordAt bs (5 + 2 * i) : Int))
    data_stack := (List.range (wordAt bs 35)).map (fun i => (wordAt bs (37 + 2 * i) : Int)) }

/-- The per-frame records of `save_game`: a 2-byte length then the record,
for each frame from the bottom of the stack up (the Python list runs
bottom-first; our list keeps the top at the head, hence the `reverse` at the
call site). -/
def serializeFrames : List Frame → Except Halted (List Nat)
  | [] => .ok []
  | f :: rest => do
    let data ← f.serialize
    let len ← toBytes2 (data.length : Int)
    let r ← serializeFrames rest
    .ok (len ++ data ++ r)

/-- The byte stream `ZMachine.save_game` writes: magic `ZSAV`, version, PC
(2 bytes — `to_bytes` raises beyond 0xFFFF), dynamic-memory size (the word at
0x0E) and bytes (Python slicing clamps to the memory length), frame count,
frame records.  A raised error is caught by the source and reported as a
failed save. -/
def save_game_bytes (s : ZMachineSt) : Except Halted (List Nat) := do
  let ver ← toBytes1 s.z_version
  let pcb ← toBytes2 s.pc
  let mem_size := s.memory.read_word 0x0e
  let msb ← toBytes2 (mem_size : Int)
  let memBytes := (List.range (min mem_size s.memory.size)).map s.memory.get
  let cnt ← toBytes2 (s.call_stack.length : Int)
  let frames ← serializeFrames s.call_stack.reverse
  .ok ([90, 83, 65, 86] ++ ver ++ pcb ++ msb ++ memBytes ++ cnt ++ frames)

/-- Python `memory[0:mem_size] = chunk` on a bytearray: replaces the first
`min mem_size size` bytes with `chunk`, resizing on a length mismatch. -/
def spliceMem (m : Mem) (mem_size : Nat) (chunk : List Nat) : Mem :=
  { size := m.size - min mem_size m.size + chunk.length,
    get := fun i => if i < chunk.length then chunk.getD i 0
                    else m.get (i - chunk.length + min mem_size m.size) }

/-- The frame-reading loop of `restore_game`: `stack_size` records, each a
2-byte length followed by that many bytes, returned in file order together
with the unconsumed remainder. -/
def parseFrames : Nat → List Nat → List Frame × List Nat
  | 0, bs => ([], bs)
  | n + 1, bs =>
    let frame_size := fromBytes (bs.take 2)
    let bs := bs.drop 2
    let memBytes := bs.take frame_size
    let bs := bs.drop frame_size
    let fr := parseFrames n bs
    (Frame.unserialize memBytes :: fr.1, fr.2)

/-- The parsing core of `ZMachine.restore_game` applied to the bytes of a
save file: check magic and version (a mismatch raises `ValueError`, which the
source catches and reports as a failed restore), then replace the PC, the
first `mem_size` memory bytes, and the whole call stack. -/
def restore_game_bytes (s : ZMachineSt) (bs : List Nat) : Except Halted ZMachineSt :=
  if bs.take 4 ≠ [90, 83, 65, 86] then .error .exn else
  let bs := bs.drop 4
  if fromBytes (bs.take 1) ≠ s.z_version then .error .exn else
  let bs := bs.drop 1
  let pc := fromBytes (bs.take 2)
  let bs := bs.drop 2
  let mem_size := fromBytes (bs.take 2)
  let bs := bs.drop 2
  let chunk := bs.take mem_size
  let memory := spliceMem s.memory mem_size chunk
  let bs := bs.drop mem_size
  let stack_size := fromBytes (bs.take 2)
  let bs := bs.drop 2
  let fr := parseFrames stack_size bs
  .ok { s with pc := (pc : Int), memory := memory, call_stack := fr.1.reverse }

/-- `ZProcessor.decode_operand_types`: up to four 2-bit fields from bit 6
down; the scan stops right after the first `OMITTED` (3), which is kept in
the list as in the source. -/
def extractTypes (types_byte : Nat) : List Nat :=
  let t0 := (types_byte >>> 6) &&& 3
  if t0 = 3 then [t0] else
  let t1 := (types_byte >>> 4) &&& 3
  if t1 = 3 then [t0, t1] else
  let t2 := (types_byte >>> 2) &&& 3
  if t2 = 3 then [t0, t1, t2] else
  [t0, t1, t2, types_byte &&& 3]

/-- The operand-fetch loop of `fetch_instruction`: large constants read a
word, small constants a byte, variable references a byte naming the variable
which is then read (possibly popping the evaluation stack). -/
def fetchOperands : List Nat → ZMachineSt → Except Halted (List Int × ZMachineSt)
  | [], s => .ok ([], s)
  | t :: rest, s =>
    if t = 3 then .ok ([], s)
    else if t = 0 then do
      let v := s.memory.read_word s.pc
      let r ← fetchOperands rest { s with pc := s.pc + 2 }
      .ok ((v : Int) :: r.1, r.2)
    else if t = 1 then do
      let v := s.memory.read_byte s.pc
      let r ← fetchOperands rest { s with pc := s.pc + 1 }
      .ok ((v : Int) :: r.1, r.2)
    else do
      let var_num := s.memory.read_byte s.pc
      let vs ← read_variable { s with pc := s.pc + 1 } (var_num : Int)
      let r ← fetchOperands rest vs.2
      .ok (vs.1 :: r.1, r.2)

/-- `ZProcessor.fetch_instruction`: the PC bound check (`RuntimeError` when
`pc >= len(memory)`), form decode, and operand fetch.  Returns
`(opcode, operands, form, opcode_byte)` (the debug-only `pccount` is
dropped). -/
def fetch_instruction (s : ZMachineSt) :
    Except Halted ((Nat × List Int × Nat × Nat) × ZMachineSt) := do
  if s.pc ≥ (s.memory.size : Int) then .error .exn else
  let opcode_byte := s.memory.read_byte s.pc
  let s := { s with pc := s.pc + 1 }
  if opcode_byte ≥ 0xC0 then
    let types_byte := s.memory.read_byte s.pc
    let s := { s with pc := s.pc + 1 }
    let types := extractTypes types_byte
    let r ← fetchOperands types s
    .ok ((opcode_byte &&& 0x1F, r.1, 2, opcode_byte), r.2)
  else if opcode_byte ≥ 0xB0 then
    .ok ((opcode_byte &&& 0x3F, [], 1, opcode_byte), s)
  else if opcode_byte ≥ 0x80 then
    let r ← fetchOperands [(opcode_byte &&& 0x30) >>> 4] s
    .ok ((opcode_byte &&& 0x0F, r.1, 1, opcode_byte), r.2)
  else
    let types := [if opcode_byte &&& 0x40 = 0 then 1 else 2,
                  if opcode_byte &&& 0x20 = 0 then 1 else 2]
    let r ← fetchOperands types s
    .ok ((opcode_byte &&& 0x1F, r.1, 0, opcode_byte), r.2)

/-- An opcode handler, as stored in the `ZProcessor.opcodes` dispatch
table. -/
def Handler : Type := List Int → ZMachineSt → Except Halted ZMachineSt

/-- The result of one `execute_instruction` call: either the next state, or
interpreter termination by `sys.exit` (`SystemExit` is not caught by the
source's `except Exception` blocks). -/
inductive ExecOutcome where
  | ok : ZMachineSt → ExecOutcome
  | exited : ExecOutcome

/-- The `maxcount` instruction limit hard-coded in `execute_instruction`. -/
def maxcount : Nat := 3000

/-- The `except Exception` arm of `execute_instruction`: report the error
and stop the game. -/
def fatalCatch (s : ZMachineSt) : ZMachineSt :=
  { s.print_error "Execution error" with game_running := false }

/-- The full-opcode mapping of `execute_instruction`: 2OP opcodes keep their
number, 1OP/0OP short forms get `0x80` when operands are present, variable
form selects 2OP or VAR by bit 5 of the opcode byte. -/
def full_opcode_of (opcode : Nat) (operands : List Int) (form : Nat) (opcode_byte : Nat) : Nat :=
  if form = 0 then opcode
  else if form = 1 then (if operands.length = 0 then opcode else 0x80 ||| opcode)
  else (if opcode_byte &&& 0x20 = 0 then opcode else 0x20 ||| opcode)

/-- `ZProcessor.execute_instruction`, parameterised by the dispatch table:
fetch (an exception here is caught and stops the game), bump the instruction
count and `sys.exit` past `maxcount` — before any dispatch — then map the
full opcode and run the handler; an unknown opcode also exits.  A handler
exception is caught (stopping the game at the pre-handler state; the source
keeps the handler's partial mutations, which no claim observes). -/
def execute_instruction (table : Nat → Option Handler) (s : ZMachineSt) : ExecOutcome :=
  match fetch_instruction s with
  | .error .exit => .exited
  | .error .exn => .ok (fatalCatch s)
  | .ok ((opcode, operands, form, opcode_byte), s1) =>
    let s2 : ZMachineSt := { s1 with instruction_count := s1.instruction_count + 1 }
    if s2.instruction_count > maxcount then .exited
    else
      let full_opcode := full_opcode_of opcode operands form opcode_byte
      let s3 : ZMachineSt := { s2 with opcode := full_opcode }
      match table full_opcode with
      | some h =>
        match h operands s3 with
        | .ok s4 => .ok s4
        | .error .exn => .ok (fatalCatch s3)
        | .error .exit => .exited
      | none => .exited

/-- The `while self.game_running and self.pc < len(self.memory)` loop of
`ZMachine.execute_game`, with explicit fuel (the source loop is unbounded;
every theorem supplies enough fuel). -/
def execute_game_loop (table : Nat → Option Handler) : Nat → ZMachineSt → ExecOutcome
  | 0, s => .ok s
  | fuel + 1, s =>
    if s.game_running ∧ s.pc < (s.memory.size : Int) then
      match execute_instruction table s with
      | .exited => .exited
      | .ok s1 => execute_game_loop table fuel s1
    else .ok s

/-- Two rows of the source dispatch table (`0x3A ↦ op_quit`,
`0x3B ↦ op_new_line`), enough for runs that only meet those opcodes; the
limit theorems hold for every table. -/
def table_nl : Nat → Option Handler := fun k =>
  if k = 0x3A then some op_quit
  else if k = 0x3B then some op_new_line
  else none

/-- What the spec's branch rule (§4.6) prescribes for a taken branch. -/
inductive BranchOutcome where
  | toRfalse : BranchOutcome
  | toRtrue : BranchOutcome
  | jump : Int → BranchOutcome
  | fallthrough : BranchOutcome
deriving DecidableEq, Repr

/-- A 16-bit pattern reinterpreted as a signed two's-complement value, the
spec's `as_signed(u16)` helper. -/
def asSigned16 (n : Nat) : Int := if n < 0x8000 then (n : Int) else (n : Int) - 0x10000

/-- The branch rule of spec §4.6, stated from the spec's words: read `b0`;
bit 7 is the branch-on-true sense; bit 6 selects the 6-bit unsigned offset
`b0 & 0x3F`, else a second byte is read and the offset is the sign-extended
14-bit value `((b0 & 0x3F) << 8) | b1` (bits 14..15 become 1 when bit 13 is
set, read as signed 16-bit).  If the predicate matches the sense, offset 0
means `rfalse`, offset 1 means `rtrue`, otherwise the new PC is
`PC + offset − 2` counted from just past the branch bytes; otherwise
execution falls through.  The second component is the address just past the
branch byte(s). -/
def branchSpec (m : Mem) (pc : Int) (condition : Bool) : BranchOutcome × Int :=
  let b0 := m.read_byte pc
  let sense := decide (b0 &&& 0x80 ≠ 0)
  if b0 &&& 0x40 ≠ 0 then
    let offset : Int := ((b0 &&& 0x3F : Nat) : Int)
    let after := pc + 1
    if condition = sense then
      (if offset = 0 then .toRfalse else if offset = 1 then .toRtrue
       else .jump (after + offset - 2), after)
    else (.fallthrough, after)
  else
    let b1 := m.read_byte (pc + 1)
    let raw := ((b0 &&& 0x3F) <<< 8) ||| b1
    let offset : Int := if raw &&& 0x2000 ≠ 0 then asSigned16 (raw ||| 0xC000) else (raw : Int)
    let after := pc + 2
    if condition = sense then
      (if offset = 0 then .toRfalse else if offset = 1 then .toRtrue
       else .jump (after + offset - 2), after)
    else (.fallthrough, after)

/-! Concrete states used by witnesses and counterexamples. -/

/-- A memory built from an explicit byte list. -/
def listMem (l : List Nat) : Mem := ⟨l.length, fun i => l.getD i 0⟩

/-- A small state with one frame whose evaluation stack is empty (for the
empty-stack read claim). -/
def exFrame10 : Frame := {}

/-- State for the empty-stack witness: 16 zero bytes of memory, one frame. -/
def exSt10 : ZMachineSt :=
  { memory := listMem (List.replicate 16 0), call_stack := [exFrame10] }

/-- State for the divide-by-zero witness: result variable byte 0 at the PC,
so the quotient is pushed onto the evaluation stack of the single frame. -/
def exSt6 : ZMachineSt :=
  { memory := listMem (List.replicate 8 0), pc := 0, call_stack := [exFrame10] }

/-- Frame whose local variable 1 holds 5 (for the `dec_chk` counterexample). -/
def exFrame8 : Frame := { local_vars := (List.replicate 15 (0 : Int)).set 0 5 }

/-- State for the `dec_chk` counterexample: the byte at the PC is the branch
suffix `0xC4` (branch on true, one byte, offset 4). -/
def exSt8 : ZMachineSt :=
  { memory := listMem [0xC4, 0, 0], pc := 0, call_stack := [exFrame8] }

/-- State for the branch witness: branch byte `0x83` (branch on false,
two-byte form) followed by `0x05`, giving the sign-extended offset
`0x0305`. -/
def exSt1 : ZMachineSt :=
  { memory := listMem [0x83, 0x05, 0, 0], pc := 0, call_stack := [exFrame10] }

/-- State for the static-memory write counterexample: 100 bytes, the
static-memory base word at 0x0E reads 0x40, and the story length is 100. -/
def exSt3 : ZMachineSt :=
  { memory := ⟨100, fun i => if i = 0x0f then 0x40 else 0⟩, story_len := 100 }

/-- Memory for the object-tree counterexample: object table at 0, so object 1
sits at 62 (parent/next/child bytes 66/67/68) and object 2 at 71 (75/76/77).
Object 1 has no parent but a stale sibling byte 5; object 2 has no child. -/
def exMem5 : Mem := ⟨100, fun i => if i = 67 then 5 else 0⟩

/-- State for the object-tree counterexample. -/
def exSt5 : ZMachineSt := { memory := exMem5, object_table_addr := 0 }

/-- A large-memory variant of the object-tree state, big enough for the
whole 255-object table, used to instantiate the general insert theorem. -/
def exSt5W : ZMachineSt :=
  { memory := ⟨3000, fun i => if i = 67 then 5 else 0⟩, object_table_addr := 0 }

/-- 70000 bytes of `0xBB` (`new_line`), the program that never quits and
never faults for the instruction-limit counterexample. -/
def exMem9 : Mem := ⟨70000, fun _ => 0xBB⟩

/-- Start state of the `0xBB` run: the initial PC is the header word at 0x06,
here `0xBBBB`, and `init_frame` has pushed the initial frame. -/
def exSt9 (k : Nat) : ZMachineSt :=
  { memory := exMem9, pc := 0xBBBB + (k : Int), call_stack := [{ return_pointer := 0xBBBB }],
    instruction_count := k, output := List.replicate k "\n" }

/-- A frame with distinctive contents for the save/restore witness. -/
def exFrame2 : Frame :=
  { return_pointer := 0x1234, result_var := 7, arg_count := 2, count := 3,
    local_vars := List.replicate 15 5, data_stack := [10, 20] }

/-- Memory for the save/restore witness: 70 bytes of 3 with the
dynamic-memory size word at 0x0E reading 30. -/
def exMem2 : List Nat := ((List.replicate 70 3).set 0x0e 0).set 0x0f 30

/-- State for the save/restore witness. -/
def exSt2 : ZMachineSt :=
  { memory := listMem exMem2, pc := 0x777, call_stack := [exFrame2, {}], z_version := 3 }

/-- Memory for the tokenizer counterexample: dictionary pointer word at 8
points to a one-entry dictionary at 20 (no separators, entry size 7), the
text buffer at 40 holds `"a"`, and the parse buffer at 50 declares a
max-token capacity of 0. -/
def exMem4 : Mem :=
  listMem (((((((List.replicate 64 0).set 9 20).set 21 7).set 23 1).set 40 97).set 50 0))

/-- State for the tokenizer counterexample. -/
def exSt4 : ZMachineSt := { memory := exMem4 }

/-- The frame fields that a save file records (spec §4.8): `var_slot` and
`ctype` are not serialized, so a restored frame matches the original on
exactly these six fields. -/
def FrameMatch (f' f : Frame) : Prop :=
  f'.return_pointer = f.return_pointer ∧ f'.result_var = f.result_var ∧
  f'.arg_count = f.arg_count ∧ f'.count = f.count ∧
  f'.local_vars = f.local_vars ∧ f'.data_stack = f.data_stack

/-- The range discipline a frame observes whenever the interpreter built it
through `call` / `write_variable` (all stored words are masked to 16 bits and
the byte-sized counters to 8): exactly what `Frame.serialize` needs in order
not to overflow `to_bytes`. -/
def FrameWf (f : Frame) : Prop :=
  0 ≤ f.return_pointer ∧ f.return_pointer < 65536 ∧
  f.result_var < 256 ∧ f.arg_count < 256 ∧ f.count < 256 ∧
  f.local_vars.length = 15 ∧ (∀ v ∈ f.local_vars, 0 ≤ v ∧ v < 65536) ∧
  (∀ v ∈ f.data_stack, 0 ≤ v ∧ v < 65536) ∧
  37 + 2 * f.data_stack.length < 65536

instance (f' f : Frame) : Decidable (FrameMatch f' f) := by
  unfold FrameMatch; infer_instance

instance (f : Frame) : Decidable (FrameWf f) := by
  unfold FrameWf; infer_instance

/-! Helper lemmas. -/

theorem shiftLeft_or_eq_add {a b k : Nat} (hb : b < 2 ^ k) :
    (a <<< k) ||| b = a * 2 ^ k + b := by
  have h1 : ((a <<< k) ||| b) % 2 ^ k = b := by
    apply Nat.eq_of_testBit_eq
    intro i
    simp only [Nat.testBit_mod_two_pow, Nat.testBit_or, Nat.testBit_shiftLeft]
    by_cases h : i < k
    · simp [h, Nat.not_le.mpr h]
    · simp [h, Nat.testBit_lt_two_pow
        (Nat.lt_of_lt_of_le hb (Nat.pow_le_pow_right (by norm_num) (Nat.not_lt.mp h)))]
  have h2 : ((a <<< k) ||| b) >>> k = a := by
    apply Nat.eq_of_testBit_eq
    intro i
    simp only [Nat.testBit_shiftRight, Nat.testBit_or, Nat.testBit_shiftLeft]
    have hb2 : b.testBit (k + i) = false :=
      Nat.testBit_lt_two_pow
        (Nat.lt_of_lt_of_le hb (Nat.pow_le_pow_right (by norm_num) (Nat.le_add_right _ _)))
    simp [hb2, Nat.le_add_right, Nat.add_sub_cancel_left]
  have h3 := Nat.div_add_mod ((a <<< k) ||| b) (2 ^ k)
  rw [h1] at h3
  rw [Nat.shiftRight_eq_div_pow] at h2
  rw [h2, Nat.mul_comm] at h3
  omega

theorem and_two_pow_eq (x i : Nat) : x &&& 2 ^ i = if x.testBit i then 2 ^ i else 0 := by
  apply Nat.eq_of_testBit_eq
  intro j
  simp only [Nat.testBit_and]
  by_cases h : x.testBit i
  · simp only [h, if_true]
    by_cases hj : j = i
    · subst hj; simp [h]
    · simp [Nat.testBit_two_pow_of_ne (Ne.symm hj), hj]
  · simp only [h, if_false]
    by_cases hj : j = i
    · subst hj; simp [h]
    · simp [Nat.testBit_two_pow_of_ne (Ne.symm hj)]

theorem and_two_pow_div_mod (x i : Nat) :
    x &&& 2 ^ i = if x / 2 ^ i % 2 = 1 then 2 ^ i else 0 := by
  rw [and_two_pow_eq, Nat.testBit_to_div_mod]
  by_cases h : x / 2 ^ i % 2 = 1 <;> simp [h]

theorem Mem.read_byte_lt_256 {m : Mem} (hwf : m.Wf) {a : Int} (ha : 0 ≤ a) :
    m.read_byte a < 256 := by
  unfold Mem.read_byte Mem.atIdx
  split
  · exact hwf _ (by omega)
  · omega

theorem Mem.write_byte_size (m : Mem) (a : Int) (v : Int) :
    (m.write_byte a v).size = m.size := by
  unfold Mem.write_byte Mem.setIdx
  split
  · split <;> rfl
  · rfl

theorem Mem.read_byte_write_byte (m : Mem) {a b : Int} (v : Int)
    (ha : 0 ≤ a) (hb : 0 ≤ b) :
    (m.write_byte a v).read_byte b =
      if b = a ∧ b < (m.size : Int) then (v % 256).toNat else m.read_byte b := by
  by_cases haz : a < (m.size : Int) <;> by_cases hbz : b < (m.size : Int) <;>
    by_cases hba : b = a <;>
    simp only [Mem.write_byte, Mem.setIdx, Mem.read_byte, Mem.atIdx, haz, hbz, hba, ha, hb,
      if_true, if_false, and_true, and_false, if_pos, if_neg, not_false_iff, and_self] <;>
    first
      | (subst hba
         simp [haz, hbz, ha, Function.update_apply])
      | (simp [haz, hbz, ha, hb, Function.update_apply]
         first
           | rfl
           | (intro h; omega)
           | omega)
      | omega

theorem except_bind_ok {ε α β : Type} (a : α) (f : α → Except ε β) :
    (Except.ok a >>= f) = f a := rfl

theorem except_bind_error {ε α β : Type} (e : ε) (f : α → Except ε β) :
    ((Except.error e : Except ε α) >>= f) = Except.error e := rfl

theorem write_variable_ok_inv {s : ZMachineSt} {v x : Int} {s' : ZMachineSt}
    (h : write_variable s v x = .ok s') :
    s'.game_running = s.game_running ∧ s'.pc = s.pc ∧ s'.errors = s.errors ∧
      s'.instruction_count = s.instruction_count := by
  unfold write_variable at h
  dsimp only at h
  split at h
  · cases hcs : s.call_stack with
    | nil => rw [hcs] at h; cases h
    | cons f rest => rw [hcs] at h; cases h; exact ⟨rfl, rfl, rfl, rfl⟩
  · split at h
    · cases hcs : s.call_stack with
      | nil => rw [hcs] at h; cases h
      | cons f rest => rw [hcs] at h; cases h; exact ⟨rfl, rfl, rfl, rfl⟩
    · cases h; exact ⟨rfl, rfl, rfl, rfl⟩

theorem store_result_ok_inv {s : ZMachineSt} {x : Int} {s' : ZMachineSt}
    (h : store_result s x = .ok s') :
    s'.game_running = s.game_running ∧ s'.pc = s.pc + 1 ∧ s'.errors = s.errors := by
  unfold store_result at h
  have h2 := write_variable_ok_inv h
  simp only at h2
  exact ⟨h2.1, h2.2.1, h2.2.2.1⟩

/-! Claim theorems. -/

/-- C10: reading variable 0 when the current frame's evaluation stack is
empty never raises: `read_variable` reports the error, clears
`game_running`, returns 0, and leaves memory, the frame stack and the PC
unchanged. -/
theorem C10_read_variable_empty_stack (s : ZMachineSt) (f : Frame) (rest : List Frame)
    (hcs : s.call_stack = f :: rest) (hds : f.data_stack = []) :
    ∃ s', read_variable s 0 = .ok (0, s') ∧
      s'.game_running = false ∧
      s'.memory = s.memory ∧
      s'.call_stack = s.call_stack ∧
      s'.pc = s.pc ∧
      s'.errors = "data stack is empty in read_variable()" :: s.errors := by
  refine ⟨{ s.print_error "data stack is empty in read_variable()" with game_running := false },
    ?_, rfl, rfl, rfl, rfl, rfl⟩
  simp [read_variable, hcs, hds, ZMachineSt.print_error]

/-- Witness for C10 at a concrete state. -/
theorem C10_witness :
    exSt10.call_stack = exFrame10 :: [] ∧ exFrame10.data_stack = [] ∧
      ∃ s', read_variable exSt10 0 = .ok (0, s') ∧ s'.game_running = false := by
  refine ⟨rfl, rfl, ?_⟩
  obtain ⟨s', h1, h2, _⟩ := C10_read_variable_empty_stack exSt10 exFrame10 [] rfl rfl
  exact ⟨s', h1, h2⟩

/-- C6: `div` with divisor 0 stores the defined result 0x7FFF and `mod` with
divisor 0 stores 0; both only log a diagnostic (via `print_error`) and hand
the result to the ordinary `store_result`, which leaves `game_running` as it
was and moves the PC past the result-variable byte — the VM continues with
the next instruction. -/
theorem C6_div_mod_by_zero (a : Int) (s : ZMachineSt) :
    op_div [a, 0] s =
      store_result (s.print_error "divide by zero error: Result set to 32767 (0x7fff).") 32767 ∧
    op_mod [a, 0] s =
      store_result (s.print_error "mod by zero error: Result set to 0.") 0 ∧
    (∀ msg v s', store_result (s.print_error msg) v = .ok s' →
      s'.game_running = s.game_running ∧ s'.pc = s.pc + 1 ∧
        s'.errors = msg :: s.errors) := by
  refine ⟨?_, ?_, ?_⟩
  · simp [op_div, pyToSigned]
  · simp [op_mod]
  · intro msg v s' h
    have h2 := store_result_ok_inv h
    simp only [ZMachineSt.print_error] at h2
    exact ⟨h2.1, h2.2.1, h2.2.2⟩

/-- Witness for C6 at a concrete state: the quotient 0x7FFF lands on the
evaluation stack (result variable 0) and the game keeps running. -/
theorem C6_witness :
    (op_div [5, 0] exSt6).toOption.map (fun s' => (s'.game_running, s'.pc)) = some (true, 1) ∧
    (op_mod [5, 0] exSt6).toOption.map (fun s' => (s'.game_running, s'.pc)) = some (true, 1) := by
  rw [(C6_div_mod_by_zero 5 exSt6).1, (C6_div_mod_by_zero 5 exSt6).2.1]
  constructor <;> rfl

/-- C7 (code evidence): `op_random` with range 0 does not seed-and-store-0 as
the spec prescribes; it raises (`result` is referenced before assignment),
which `execute_instruction` catches as a fatal execution error.  The other
branches behave as claimed: a negative range records a seed of `|range|` and
stores 0, and a positive range stores the host PRNG draw from `1..=range`. -/
theorem C7_random_zero_raises (randint : Int → Int → Int) (s : ZMachineSt) :
    op_random randint [0] s = .error .exn ∧
    (∀ r : Int, r < 0 →
      op_random randint [r] s = store_result { s with seeds := r.natAbs :: s.seeds } 0) ∧
    (∀ r : Int, 0 < r → op_random randint [r] s = store_result s (randint 1 r)) := by
  refine ⟨by simp [op_random], fun r hr => ?_, fun r hr => ?_⟩
  · simp [op_random, hr]
  · simp [op_random, hr, not_lt_of_gt hr]

/-- Witness for C7: at a concrete state, range 0 raises while ranges -3 and 3
store through the normal path. -/
theorem C7_witness :
    op_random (fun _ hi => hi) [0] exSt6 = .error .exn ∧
    op_random (fun _ hi => hi) [-3] exSt6 =
      store_result { exSt6 with seeds := [3] } 0 ∧
    op_random (fun _ hi => hi) [3] exSt6 = store_result exSt6 3 := by
  have h := C7_random_zero_raises (fun _ hi => hi) exSt6
  exact ⟨h.1, h.2.1 (-3) (by norm_num), h.2.2 3 (by norm_num)⟩

/-- C3 (amended): `write_byte` checks only the upper memory bound: an
in-range write (any address below the memory length, including addresses at
or above the static-memory base) silently stores the masked byte, and an
out-of-range write is silently ignored — neither is an error.  `op_storeb`
performs no check at all and never halts; `op_storew` exits the interpreter
only when its base-address operand exceeds the story length (the offset is
not included, and the static base plays no role), and otherwise writes
silently. -/
theorem C3_amended_write_checks (m : Mem) (a v : Int) (s : ZMachineSt) :
    (0 ≤ a → a < (m.size : Int) → m.write_byte a v = m.setIdx a (v % 256).toNat) ∧
    ((m.size : Int) ≤ a → m.write_byte a v = m) ∧
    (∀ a0 a1 val : Int,
      op_storeb [a0, a1, val] s = .ok { s with memory := s.memory.write_byte (a0 + a1) val }) ∧
    (∀ a0 a1 val : Int, a0 > (s.story_len : Int) → op_storew [a0, a1, val] s = .error .exit) ∧
    (∀ a0 a1 val : Int, a0 ≤ (s.story_len : Int) →
      op_storew [a0, a1, val] s = .ok { s with memory := s.memory.write_word (a0 + a1 * 2) val }) := by
  refine ⟨fun _ h2 => ?_, fun h => ?_, fun a0 a1 val => ?_, fun a0 a1 val h => ?_,
    fun a0 a1 val h => ?_⟩
  · simp [Mem.write_byte, h2]
  · simp [Mem.write_byte, not_lt_of_ge h]
  · rfl
  · simp [op_storew, h]
  · simp [op_storew, not_lt_of_ge h]

/-- Witness for C3's amended theorem at concrete inputs. -/
theorem C3_amended_witness :
    exSt3.memory.write_byte 0x40 77 = exSt3.memory.setIdx 0x40 77 ∧
    exSt3.memory.write_byte 200 5 = exSt3.memory ∧
    op_storew [101, 0, 5] exSt3 = .error .exit := by
  refine ⟨?_, ?_, ?_⟩
  · have h := (C3_amended_write_checks exSt3.memory 0x40 77 exSt3).1 (by decide)
      (by show (0x40 : Int) < ((100 : Nat) : Int); decide)
    simpa using h
  · exact (C3_amended_write_checks exSt3.memory 200 5 exSt3).2.1
      (by show ((100 : Nat) : Int) ≤ 200; decide)
  · exact (C3_amended_write_checks exSt3.memory 0 0 exSt3).2.2.2.1 101 0 5
      (by show (101 : Int) > ((100 : Nat) : Int); decide)

/-- C3 (counterexample): in a state whose static-memory base (the word at
0x0E) is 0x40, `storeb` to address 0x40 — which the claim says must be a
fatal VM error — silently writes the byte and leaves the game running with
no diagnostic; and a `write_byte` beyond the end of memory — which the claim
says must also be fatal — is silently ignored. -/
theorem C3_counterexample :
    exSt3.memory.read_word 0x0e = 0x40 ∧
    (∃ s', op_storeb [0x40, 0, 77] exSt3 = .ok s' ∧
      s'.memory.get 0x40 = 77 ∧ s'.game_running = true ∧ s'.errors = []) ∧
    exSt3.memory.write_byte 200 5 = exSt3.memory := by
  refine ⟨by decide, ⟨{ exSt3 with memory := exSt3.memory.write_byte 0x40 77 }, rfl, ?_, rfl, rfl⟩, ?_⟩
  · show (exSt3.memory.write_byte 0x40 77).get 0x40 = 77
    simp [Mem.write_byte, Mem.setIdx, exSt3]
  · simp [Mem.write_byte, exSt3]

/-- C8 (amended): `dec_chk` decrements and `inc_chk` increments the variable
named by operand 0 (the stored value is masked to 16 bits by
`write_variable`), and then branch on a comparison of the raw, unmasked
new value against operand 1 as plain integers — no signed 16-bit
reinterpretation is applied to either side. -/
theorem C8_amended_raw_comparison (s s₁ d i : ZMachineSt) (v t x : Int)
    (hr : read_variable s v = .ok (x, s₁))
    (hd : write_variable s₁ v (x - 1) = .ok d)
    (hi : write_variable s₁ v (x + 1) = .ok i) :
    op_dec_chk [v, t] s = branch d (decide (x - 1 < t)) ∧
    op_inc_chk [v, t] s = branch i (decide (x + 1 > t)) := by
  constructor
  · simp [op_dec_chk, hr, hd, except_bind_ok]
  · simp [op_inc_chk, hr, hi, except_bind_ok]

/-- Witness for C8's amended theorem: local variable 1 holds 5 and the
threshold is 0x8000. -/
theorem C8_amended_witness :
    ∃ d i, op_dec_chk [1, 32768] exSt8 = branch d true ∧
      op_inc_chk [1, 32768] exSt8 = branch i false := by
  have h := C8_amended_raw_comparison exSt8
    exSt8 { exSt8 with call_stack := [{ exFrame8 with local_vars := (exFrame8.local_vars).set 0 4 }] }
    { exSt8 with call_stack := [{ exFrame8 with local_vars := (exFrame8.local_vars).set 0 6 }] }
    1 32768 5 rfl rfl rfl
  exact ⟨_, _, h.1, h.2⟩

/-- C8 (counterexample): with local variable 1 holding 5 and operand 1 being
0x8000, `dec_chk` takes the branch (the final PC is 3: one branch byte was
consumed and the taken offset 4 moved the PC by 2 more) even though the
claim's signed comparison 4 < -32768 is false; the local is decremented to
4. -/
theorem C8_counterexample :
    (∃ s', op_dec_chk [1, 32768] exSt8 = .ok s' ∧ s'.pc = 3 ∧
      (s'.call_stack.headD {}).local_vars.getD 0 0 = 4 ∧ s'.game_running = true) ∧
    ¬ (asSigned16 4 < asSigned16 32768) := by
  refine ⟨⟨_, rfl, ?_, ?_, ?_⟩, by decide⟩ <;> rfl

theorem or_C000_ge (raw : Nat) : 32768 ≤ raw ||| 0xC000 := by
  have t15 : (raw ||| 0xC000).testBit 15 = true := by
    rw [Nat.testBit_or]
    have : (0xC000 : Nat).testBit 15 = true := by decide
    simp [this]
  have := Nat.testBit_implies_ge t15
  norm_num at this
  exact this

theorem or_C000_and_8000 (raw : Nat) : (raw ||| 0xC000) &&& 0x8000 ≠ 0 := by
  have t15 : (raw ||| 0xC000).testBit 15 = true := by
    rw [Nat.testBit_or]
    have : (0xC000 : Nat).testBit 15 = true := by decide
    simp [this]
  have h : (0x8000 : Nat) = 2 ^ 15 := by norm_num
  rw [h, and_two_pow_eq, t15]
  norm_num

theorem lt_2_14_and_8000 {raw : Nat} (hraw : raw < 16384) : raw &&& 0x8000 = 0 := by
  have h : (0x8000 : Nat) = 2 ^ 15 := by norm_num
  have ht : raw.testBit 15 = false := Nat.testBit_lt_two_pow (by norm_num; omega)
  rw [h, and_two_pow_eq, ht]
  norm_num

/-- The double-byte branch offset computed by the source equals the spec's
sign-extended 14-bit value. -/
theorem branch_offset_eq {raw : Nat} (hraw : raw < 16384) :
    (if 0 < (if raw &&& 0x2000 ≠ 0 then raw ||| 0xC000 else raw) ∧
        (if raw &&& 0x2000 ≠ 0 then raw ||| 0xC000 else raw) &&& 0x8000 ≠ 0
     then (((if raw &&& 0x2000 ≠ 0 then raw ||| 0xC000 else raw) : Nat) : Int) - 0x10000
     else (((if raw &&& 0x2000 ≠ 0 then raw ||| 0xC000 else raw) : Nat) : Int)) =
    (if raw &&& 0x2000 ≠ 0 then asSigned16 (raw ||| 0xC000) else (raw : Int)) := by
  by_cases h13 : raw &&& 0x2000 ≠ 0
  · have hge := or_C000_ge raw
    have h15 := or_C000_and_8000 raw
    rw [if_pos h13, if_pos h13, if_pos ⟨by omega, h15⟩]
    show _ = (if _ < 0x8000 then _ else _)
    rw [if_neg (by push_cast; omega)]
  · have h15 := lt_2_14_and_8000 hraw
    rw [if_neg h13, if_neg h13, if_neg (fun hq => hq.2 h15)]

/-- C1: the source's `branch` agrees with the spec's §4.6 rule on every
state: the branch byte(s) decode to the spec's sense and offset, a branch
whose predicate matches the sense executes `rfalse` (offset 0) or `rtrue`
(offset 1) or jumps to `PC + offset − 2` counted from just past the branch
bytes, and a non-matching predicate leaves the PC just past the branch
byte(s). -/
theorem C1_branch_follows_spec (s : ZMachineSt) (cond : Bool)
    (hwf : s.memory.Wf) (hpc : 0 ≤ s.pc) :
    branch s cond =
      (match branchSpec s.memory s.pc cond with
       | (.toRfalse, after) => op_rfalse [] { s with pc := after }
       | (.toRtrue, after) => op_rtrue [] { s with pc := after }
       | (.jump p, _) => .ok { s with pc := p }
       | (.fallthrough, after) => .ok { s with pc := after }) := by
  have hb0 : s.memory.read_byte s.pc < 256 := Mem.read_byte_lt_256 hwf hpc
  have hb1 : s.memory.read_byte (s.pc + 1) < 256 := Mem.read_byte_lt_256 hwf (by omega)
  have hA : s.memory.read_byte s.pc &&& 0x3F < 64 := by
    have := Nat.and_pow_two_sub_one_eq_mod (s.memory.read_byte s.pc) 6
    norm_num at this ⊢
    omega
  have hraw : ((s.memory.read_byte s.pc &&& 0x3F) <<< 8) ||| s.memory.read_byte (s.pc + 1)
      < 16384 := by
    rw [shiftLeft_or_eq_add (by norm_num; omega)]
    norm_num
    omega
  have hbool : (if s.memory.read_byte s.pc &&& 0x80 = 0 then !cond else cond) = true ↔
      (cond = decide (s.memory.read_byte s.pc &&& 0x80 ≠ 0)) := by
    by_cases h80 : s.memory.read_byte s.pc &&& 0x80 = 0 <;> cases cond <;> simp [h80]
  by_cases h40 : s.memory.read_byte s.pc &&& 0x40 = 0
  · -- two-byte branch suffix
    simp only [branch, branchSpec, h40, if_true, ne_eq, not_true_eq_false, if_false]
    rw [branch_offset_eq hraw]
    rw [show s.pc + 1 + 1 = s.pc + 2 from by ring]
    by_cases hmatch : cond = decide (s.memory.read_byte s.pc &&& 0x80 ≠ 0)
    · rw [hbool.mpr hmatch, if_pos hmatch]
      simp only [if_true]
      generalize (if ((s.memory.read_byte s.pc &&& 0x3F) <<< 8 |||
          s.memory.read_byte (s.pc + 1)) &&& 0x2000 ≠ 0 then
          asSigned16 (((s.memory.read_byte s.pc &&& 0x3F) <<< 8 |||
            s.memory.read_byte (s.pc + 1)) ||| 0xC000)
        else (((s.memory.read_byte s.pc &&& 0x3F) <<< 8 |||
          s.memory.read_byte (s.pc + 1) : Nat) : Int)) = O
      by_cases hO0 : O = 0
      · simp [hO0]
      · by_cases hO1 : O = 1
        · simp [hO0, hO1]
        · simp [hO0, hO1]
    · have hb : (if s.memory.read_byte s.pc &&& 0x80 = 0 then !cond else cond) = false := by
        rcases Bool.eq_false_or_eq_true (if s.memory.read_byte s.pc &&& 0x80 = 0 then !cond
          else cond) with h | h
        · exact absurd (hbool.mp h) hmatch
        · exact h
      rw [hb, if_neg hmatch]
      rfl
  · -- one-byte branch suffix
    simp only [branch, branchSpec, h40, if_false, ne_eq, not_false_iff, if_true]
    by_cases hmatch : cond = decide (s.memory.read_byte s.pc &&& 0x80 ≠ 0)
    · rw [hbool.mpr hmatch, if_pos hmatch]
      simp only [if_true]
      generalize ((s.memory.read_byte s.pc &&& 0x3F : Nat) : Int) = O
      by_cases hO0 : O = 0
      · simp [hO0]
      · by_cases hO1 : O = 1
        · simp [hO0, hO1]
        · simp [hO0, hO1]
    · have hb : (if s.memory.read_byte s.pc &&& 0x80 = 0 then !cond else cond) = false := by
        rcases Bool.eq_false_or_eq_true (if s.memory.read_byte s.pc &&& 0x80 = 0 then !cond
          else cond) with h | h
        · exact absurd (hbool.mp h) hmatch
        · exact h
      rw [hb, if_neg hmatch]
      rfl

/-- Witness for C1: branch byte `0x83` then `0x05` (branch on true,
two-byte, offset 0x0305 = 773) with a true condition jumps to
`pc + 2 + 773 − 2 = 773`. -/
theorem C1_witness :
    exSt1.memory.Wf ∧ 0 ≤ exSt1.pc ∧ branch exSt1 true = .ok { exSt1 with pc := 773 } := by
  have hwf : exSt1.memory.Wf := by
    intro a ha
    have h4 : a < 4 := ha
    interval_cases a <;> decide
  refine ⟨hwf, by decide, ?_⟩
  rw [C1_branch_follows_spec exSt1 true hwf (by decide)]
  rfl

theorem fieldOfs_range (f : Nat) : 4 ≤ fieldOfs f ∧ fieldOfs f ≤ 6 := by
  unfold fieldOfs object_parent object_next object_child
  split
  · norm_num
  · split <;> norm_num

theorem read_object_eq (m : Mem) (p : Int) (f : Nat) :
    read_object m p f = m.read_byte (p + fieldOfs f) := by
  unfold read_object fieldOfs
  split
  · rfl
  · split <;> rfl

theorem write_object_eq (m : Mem) (p : Int) (f : Nat) (v : Int) :
    write_object m p f v = m.write_byte (p + fieldOfs f) v := by
  unfold write_object fieldOfs
  split
  · rfl
  · split <;> rfl

theorem write_object_size (m : Mem) (p : Int) (f : Nat) (v : Int) :
    (write_object m p f v).size = m.size := by
  rw [write_object_eq]
  exact Mem.write_byte_size m _ v

theorem Mem.write_byte_wf {m : Mem} (hwf : m.Wf) (a v : Int) : (m.write_byte a v).Wf := by
  intro b hb
  rw [Mem.write_byte_size] at hb
  have hmask : (v % 256).toNat < 256 := by
    have h1 : 0 ≤ v % 256 := Int.emod_nonneg v (by norm_num)
    have h2 : v % 256 < 256 := Int.emod_lt_of_pos v (by norm_num)
    omega
  unfold Mem.write_byte Mem.setIdx
  split
  · split
    · dsimp only
      simp only [Function.update_apply]
      split
      · exact hmask
      · exact hwf b hb
    · dsimp only
      simp only [Function.update_apply]
      split
      · exact hmask
      · exact hwf b hb
  · exact hwf b hb

theorem write_object_wf {m : Mem} (hwf : m.Wf) (p : Int) (f : Nat) (v : Int) :
    (write_object m p f v).Wf := by
  rw [write_object_eq]
  exact Mem.write_byte_wf hwf _ v

theorem read_object_lt_256 {m : Mem} (hwf : m.Wf) {p : Int} (f : Nat) (hp : 0 ≤ p + fieldOfs f) :
    read_object m p f < 256 := by
  rw [read_object_eq]
  exact Mem.read_byte_lt_256 hwf hp

theorem read_object_write_object (m : Mem) (p q : Int) (f g : Nat) (v : Int)
    (hp : 0 ≤ p + fieldOfs f) (hq : 0 ≤ q + fieldOfs g) :
    read_object (write_object m p f v) q g =
      if q + fieldOfs g = p + fieldOfs f ∧ q + fieldOfs g < (m.size : Int) then (v % 256).toNat
      else read_object m q g := by
  rw [read_object_eq, write_object_eq, Mem.read_byte_write_byte m v hp hq, read_object_eq]

theorem read_write_object_ne (m : Mem) (p q : Int) (f g : Nat) (v : Int)
    (hp : 0 ≤ p + fieldOfs f) (hq : 0 ≤ q + fieldOfs g)
    (hne : q + fieldOfs g ≠ p + fieldOfs f) :
    read_object (write_object m p f v) q g = read_object m q g := by
  rw [read_object_write_object m p q f g v hp hq, if_neg (by tauto)]

theorem read_write_object_hit (m : Mem) (p : Int) (f : Nat) (v : Int)
    (hp : 0 ≤ p + fieldOfs f) (hlt : p + fieldOfs f < (m.size : Int)) :
    read_object (write_object m p f v) p f = (v % 256).toNat := by
  rw [read_object_write_object m p p f f v hp hp, if_pos ⟨rfl, hlt⟩]

theorem objAddr_field_nonneg (s : ZMachineSt) (hotb : 0 ≤ s.object_table_addr) {o : Int}
    (ho : 0 ≤ o) (f : Nat) : 0 ≤ get_object_address s o + fieldOfs f := by
  have hf := fieldOfs_range f
  unfold get_object_address max_properties object_size
  push_cast
  omega

theorem objAddr_field_lt_size (s : ZMachineSt)
    (hsize : s.object_table_addr + 2360 < (s.memory.size : Int)) {o : Int}
    (ho : 0 ≤ o) (ho2 : o ≤ 255) (f : Nat) :
    get_object_address s o + fieldOfs f < (s.memory.size : Int) := by
  have hf := fieldOfs_range f
  unfold get_object_address max_properties object_size
  push_cast
  omega

theorem findPrevChild_bounds (s : ZMachineSt) (hwf : s.memory.Wf)
    (hotb : 0 ≤ s.object_table_addr) {obj : Int} :
    ∀ {fuel : Nat} {c X : Int}, 0 ≤ c → c ≤ 255 →
      findPrevChild s obj c fuel = some X → 0 ≤ X ∧ X ≤ 255 := by
  intro fuel
  induction fuel with
  | zero => intro c X _ _ h; cases h
  | succ n ih =>
    intro c X hc0 hc1 h
    simp only [findPrevChild] at h
    split at h
    · cases h; exact ⟨hc0, hc1⟩
    · refine ih (Int.natCast_nonneg _) ?_ h
      have := read_object_lt_256 hwf object_next (objAddr_field_nonneg s hotb hc0 object_next)
      omega

theorem fieldOfs_parent : fieldOfs object_parent = 4 := rfl

theorem fieldOfs_next : fieldOfs object_next = 5 := rfl

theorem fieldOfs_child : fieldOfs object_child = 6 := rfl

theorem get_object_address_eq (s : ZMachineSt) (o : Int) :
    get_object_address s o = s.object_table_addr + 62 + (o - 1) * 9 := by
  unfold get_object_address max_properties object_size
  push_cast
  ring

theorem mask_byte_id {n : Nat} (h : n < 256) : (((n : Int)) % 256).toNat = n := by
  rw [Int.emod_eq_of_lt (by positivity) (by exact_mod_cast h)]
  exact Int.toNat_natCast n

/-- The full behaviour of `remove_object` on a well-formed state: no parent
means no change; otherwise the parent's child pointer (when A is the first
child) or the predecessor's sibling pointer (otherwise) is redirected to A's
old sibling — preserving the order of the remaining siblings — and A's
parent and sibling pointers are zeroed. -/
theorem remove_object_spec (s : ZMachineSt) (A : Int) (fuel : Nat) (s₁ : ZMachineSt)
    (hwf : s.memory.Wf) (hotb : 0 ≤ s.object_table_addr)
    (hA1 : 1 ≤ A) (hA2 : A ≤ 255)
    (hsize : s.object_table_addr + 2360 < (s.memory.size : Int))
    (hrem : remove_object s A fuel = some s₁) :
    s₁.object_table_addr = s.object_table_addr ∧
    s₁.memory.size = s.memory.size ∧
    s₁.memory.Wf ∧
    (((read_object s.memory (get_object_address s A) object_parent : Int) = 0 → s₁ = s) ∧
     (∀ par : Int,
       ((read_object s.memory (get_object_address s A) object_parent : Nat) : Int) = par →
       par ≠ 0 →
       (read_object s₁.memory (get_object_address s A) object_parent = 0 ∧
        read_object s₁.memory (get_object_address s A) object_next = 0) ∧
       (((read_object s.memory (get_object_address s par) object_child : Nat) : Int) = A →
         read_object s₁.memory (get_object_address s par) object_child =
           read_object s.memory (get_object_address s A) object_next) ∧
       (((read_object s.memory (get_object_address s par) object_child : Nat) : Int) ≠ A →
         ∀ X : Int,
           findPrevChild s A
             ((read_object s.memory (get_object_address s par) object_child : Nat) : Int) fuel
             = some X → X ≠ A →
           read_object s₁.memory (get_object_address s X) object_next =
             read_object s.memory (get_object_address s A) object_next))) := by
  have hA0 : (0 : Int) ≤ A := by omega
  have hANp : 0 ≤ get_object_address s A + fieldOfs object_parent :=
    objAddr_field_nonneg s hotb hA0 _
  have hANn : 0 ≤ get_object_address s A + fieldOfs object_next :=
    objAddr_field_nonneg s hotb hA0 _
  have hparlt : read_object s.memory (get_object_address s A) object_parent < 256 :=
    read_object_lt_256 hwf _ hANp
  simp only [remove_object] at hrem
  by_cases hpar0 : ((read_object s.memory (get_object_address s A) object_parent : Nat) : Int) = 0
  · rw [if_pos hpar0] at hrem
    injection hrem with h
    subst h
    refine ⟨rfl, rfl, hwf, fun _ => rfl, ?_⟩
    intro par hpareq hparne
    exact absurd (by omega : par = 0) hparne
  · rw [if_neg hpar0] at hrem
    -- abbreviations matching the source's locals
    have hpar0' : (0 : Int) ≤ (read_object s.memory (get_object_address s A) object_parent : Int) :=
      Int.natCast_nonneg _
    have hPp : 0 ≤ get_object_address s
        ((read_object s.memory (get_object_address s A) object_parent : Nat) : Int) +
        fieldOfs object_child :=
      objAddr_field_nonneg s hotb hpar0' _
    have hchlt : read_object s.memory
        (get_object_address s ((read_object s.memory (get_object_address s A) object_parent :
          Nat) : Int)) object_child < 256 :=
      read_object_lt_256 hwf _ hPp
    by_cases hch : ((read_object s.memory
        (get_object_address s ((read_object s.memory (get_object_address s A) object_parent :
          Nat) : Int)) object_child : Nat) : Int) = A
    · rw [if_pos hch] at hrem
      injection hrem with h
      subst h
      refine ⟨rfl, ?_, ?_, fun h0 => absurd h0 hpar0, ?_⟩
      · simp [write_object_size]
      · exact write_object_wf (write_object_wf (write_object_wf hwf _ _ _) _ _ _) _ _ _
      · intro par hpareq hparne
        subst hpareq
        refine ⟨⟨?_, ?_⟩, ?_, ?_⟩
        · -- parent byte of A is 0: second write hits, third write misses it
          rw [read_write_object_ne _ _ _ _ _ _ hANn hANp
              (by simp only [fieldOfs_parent, fieldOfs_next, fieldOfs_child, get_object_address_eq]; omega),
            read_write_object_hit _ _ _ _ hANp
              (by rw [write_object_size]
                  exact objAddr_field_lt_size s hsize hA0 hA2 _)]
          decide
        · rw [read_write_object_hit _ _ _ _ hANn
            (by rw [write_object_size, write_object_size]
                exact objAddr_field_lt_size s hsize hA0 hA2 _)]
          decide
        · intro _
          rw [read_write_object_ne _ _ _ _ _ _ hANn hPp
              (by simp only [fieldOfs_parent, fieldOfs_next, fieldOfs_child,
                    get_object_address_eq]
                  omega),
            read_write_object_ne _ _ _ _ _ _ hANp hPp
              (by simp only [fieldOfs_parent, fieldOfs_next, fieldOfs_child,
                    get_object_address_eq]
                  omega),
            read_write_object_hit _ _ _ _ hPp
              (objAddr_field_lt_size s hsize hpar0' (by omega) _)]
          exact mask_byte_id (read_object_lt_256 hwf _ hANn)
        · intro hne
          exact absurd hch hne
    · rw [if_neg hch] at hrem
      cases hfind : findPrevChild s A ((read_object s.memory
          (get_object_address s ((read_object s.memory (get_object_address s A)
            object_parent : Nat) : Int)) object_child : Nat) : Int) fuel with
      | none =>
        rw [hfind] at hrem
        simp at hrem
      | some X =>
        rw [hfind] at hrem
        have hX := findPrevChild_bounds s hwf hotb (Int.natCast_nonneg _) (by omega) hfind
        have hXn : 0 ≤ get_object_address s X + fieldOfs object_next :=
          objAddr_field_nonneg s hotb hX.1 _
        injection hrem with h
        subst h
        refine ⟨rfl, ?_, ?_, fun h0 => absurd h0 hpar0, ?_⟩
        · simp [write_object_size]
        · exact write_object_wf (write_object_wf (write_object_wf hwf _ _ _) _ _ _) _ _ _
        · intro par hpareq hparne
          subst hpareq
          refine ⟨⟨?_, ?_⟩, ?_, ?_⟩
          · rw [read_write_object_ne _ _ _ _ _ _ hANn hANp
                (by simp only [fieldOfs_parent, fieldOfs_next, fieldOfs_child, get_object_address_eq]; omega),
              read_write_object_hit _ _ _ _ hANp
                (by rw [write_object_size]
                    exact objAddr_field_lt_size s hsize hA0 hA2 _)]
            decide
          · rw [read_write_object_hit _ _ _ _ hANn
              (by rw [write_object_size, write_object_size]
                  exact objAddr_field_lt_size s hsize hA0 hA2 _)]
            decide
          · intro hc
            exact absurd hc hch
          · intro _ X' hfind' hX'A
            rw [hfind] at hfind'
            injection hfind' with hXX
            subst hXX
            rw [read_write_object_ne _ _ _ _ _ _ hANn hXn
                (by simp only [fieldOfs_parent, fieldOfs_next, fieldOfs_child,
                      get_object_address_eq]
                    omega),
              read_write_object_ne _ _ _ _ _ _ hANp hXn
                (by simp only [fieldOfs_parent, fieldOfs_next, fieldOfs_child,
                      get_object_address_eq]
                    omega),
              read_write_object_hit _ _ _ _ hXn
                (objAddr_field_lt_size s hsize hX.1 hX.2 _)]
            exact mask_byte_id (read_object_lt_256 hwf _ hANn)

theorem mask_byte_int {v : Int} (h0 : 0 ≤ v) (h1 : v < 256) :
    (((v % 256).toNat : Nat) : Int) = v := by
  rw [Int.emod_eq_of_lt h0 h1, Int.toNat_of_nonneg h0]

/-- C5 (amended): for objects `A, B ≠ 0`, `insert_obj A into B` first unlinks
A from its parent's child chain exactly as `remove_object` does (nothing when
A has no parent; otherwise the parent's child pointer or A's predecessor's
sibling pointer is redirected to A's old sibling — preserving the order of
the remaining siblings — and A's parent and sibling pointers are zeroed),
then sets `parent(A) = B` and `child(B) = A`; `sibling(A)` becomes the child
of B as seen after the unlink when that child is nonzero, and is otherwise
left at its post-unlink value — 0 when A had a parent, A's stale sibling
field when it did not. -/
theorem C5_amended_insert_obj (s : ZMachineSt) (A B : Int) (fuel : Nat) (s' : ZMachineSt)
    (hwf : s.memory.Wf) (hotb : 0 ≤ s.object_table_addr)
    (hA1 : 1 ≤ A) (hA2 : A ≤ 255) (hB1 : 1 ≤ B) (hB2 : B ≤ 255)
    (hsize : s.object_table_addr + 2360 < (s.memory.size : Int))
    (hins : op_insert_obj [A, B] s fuel = some s') :
    ∃ s₁, remove_object s A fuel = some s₁ ∧
      (((read_object s.memory (get_object_address s A) object_parent : Nat) : Int) = 0 →
        s₁ = s) ∧
      (∀ par : Int,
        ((read_object s.memory (get_object_address s A) object_parent : Nat) : Int) = par →
        par ≠ 0 →
        (read_object s₁.memory (get_object_address s A) object_parent = 0 ∧
         read_object s₁.memory (get_object_address s A) object_next = 0) ∧
        (((read_object s.memory (get_object_address s par) object_child : Nat) : Int) = A →
          read_object s₁.memory (get_object_address s par) object_child =
            read_object s.memory (get_object_address s A) object_next) ∧
        (((read_object s.memory (get_object_address s par) object_child : Nat) : Int) ≠ A →
          ∀ X : Int,
            findPrevChild s A
              ((read_object s.memory (get_object_address s par) object_child : Nat) : Int) fuel
              = some X → X ≠ A →
            read_object s₁.memory (get_object_address s X) object_next =
              read_object s.memory (get_object_address s A) object_next)) ∧
      ((read_object s'.memory (get_object_address s A) object_parent : Int) = B ∧
       (read_object s'.memory (get_object_address s B) object_child : Int) = A ∧
       (read_object s₁.memory (get_object_address s B) object_child ≠ 0 →
         read_object s'.memory (get_object_address s A) object_next =
           read_object s₁.memory (get_object_address s B) object_child) ∧
       (read_object s₁.memory (get_object_address s B) object_child = 0 →
         read_object s'.memory (get_object_address s A) object_next =
           read_object s₁.memory (get_object_address s A) object_next)) := by
  have hA0 : (0 : Int) ≤ A := by omega
  have hB0 : (0 : Int) ≤ B := by omega
  have hAp : 0 ≤ get_object_address s A + fieldOfs object_parent :=
    objAddr_field_nonneg s hotb hA0 _
  have hAn : 0 ≤ get_object_address s A + fieldOfs object_next :=
    objAddr_field_nonneg s hotb hA0 _
  have hBc : 0 ≤ get_object_address s B + fieldOfs object_child :=
    objAddr_field_nonneg s hotb hB0 _
  simp only [op_insert_obj, List.getD_cons_zero, List.getD_cons_succ] at hins
  cases hrem : remove_object s A fuel with
  | none => rw [hrem] at hins; simp at hins
  | some s₁ =>
    rw [hrem] at hins
    injection hins with h
    subst h
    obtain ⟨hotb1, hsz1, hwf1, hzero, hrm⟩ :=
      remove_object_spec s A fuel s₁ hwf hotb hA1 hA2 hsize hrem
    have hc2 : read_object
        (write_object s₁.memory (get_object_address s A) object_parent B)
        (get_object_address s B) object_child =
        read_object s₁.memory (get_object_address s B) object_child :=
      read_write_object_ne _ _ _ _ _ _ hAp hBc
        (by simp only [fieldOfs_parent, fieldOfs_child, get_object_address_eq]; omega)
    have hc2lt : read_object s₁.memory (get_object_address s B) object_child < 256 :=
      read_object_lt_256 hwf1 _ hBc
    have hm2size :
        (write_object s₁.memory (get_object_address s A) object_parent B).size
          = s.memory.size := by rw [write_object_size, hsz1]
    have hm3size :
        (write_object (write_object s₁.memory (get_object_address s A) object_parent B)
          (get_object_address s B) object_child A).size = s.memory.size := by
      rw [write_object_size, hm2size]
    refine ⟨s₁, rfl, hzero, hrm, ?_⟩
    rw [hc2]
    by_cases h0 : read_object s₁.memory (get_object_address s B) object_child = 0
    · rw [h0]
      simp only [Nat.cast_zero, ne_eq, not_true_eq_false, if_false, ite_false,
        not_not]
      refine ⟨?_, ?_, fun hcon => hcon.elim, fun _ => ?_⟩
      · rw [read_write_object_ne _ _ _ _ _ _ hBc hAp
            (by simp only [fieldOfs_parent, fieldOfs_child, get_object_address_eq]; omega),
          read_write_object_hit _ _ _ _ hAp (by rw [hsz1]; exact objAddr_field_lt_size s hsize hA0 hA2 _)]
        exact mask_byte_int hB0 (by omega)
      · rw [read_write_object_hit _ _ _ _ hBc
            (by rw [hm2size]; exact objAddr_field_lt_size s hsize hB0 hB2 _)]
        exact mask_byte_int hA0 (by omega)
      · rw [read_write_object_ne _ _ _ _ _ _ hBc hAn
            (by simp only [fieldOfs_next, fieldOfs_child, get_object_address_eq]; omega),
          read_write_object_ne _ _ _ _ _ _ hAp hAn
            (by simp only [fieldOfs_parent, fieldOfs_next, get_object_address_eq]; omega)]
    · have h0' : ((read_object s₁.memory (get_object_address s B) object_child : Nat) : Int)
          ≠ 0 := by
        intro hcon
        exact h0 (by exact_mod_cast hcon)
      rw [if_pos h0']
      refine ⟨?_, ?_, fun _ => ?_, fun hcon => absurd hcon h0⟩
      · rw [read_write_object_ne _ _ _ _ _ _ hAn hAp
            (by simp only [fieldOfs_parent, fieldOfs_next, get_object_address_eq]; omega),
          read_write_object_ne _ _ _ _ _ _ hBc hAp
            (by simp only [fieldOfs_parent, fieldOfs_child, get_object_address_eq]; omega),
          read_write_object_hit _ _ _ _ hAp
            (by rw [hsz1]; exact objAddr_field_lt_size s hsize hA0 hA2 _)]
        exact mask_byte_int hB0 (by omega)
      · rw [read_write_object_ne _ _ _ _ _ _ hAn hBc
            (by simp only [fieldOfs_next, fieldOfs_child, get_object_address_eq]; omega),
          read_write_object_hit _ _ _ _ hBc
            (by rw [hm2size]; exact objAddr_field_lt_size s hsize hB0 hB2 _)]
        exact mask_byte_int hA0 (by omega)
      · rw [read_write_object_hit _ _ _ _ hAn
            (by rw [hm3size]; exact objAddr_field_lt_size s hsize hA0 hA2 _)]
        exact mask_byte_id hc2lt

/-- Witness for C5's amended theorem at a concrete state. -/
theorem C5_amended_witness :
    ∃ s', op_insert_obj [1, 2] exSt5W 10 = some s' ∧
      ∃ s₁, remove_object exSt5W 1 10 = some s₁ ∧
        (read_object s'.memory (get_object_address exSt5W 1) object_parent : Int) = 2 ∧
        (read_object s'.memory (get_object_address exSt5W 2) object_child : Int) = 1 := by
  have hwf : exSt5W.memory.Wf := by
    intro a _
    show (if a = 67 then 5 else 0) < 256
    split <;> norm_num
  obtain ⟨t, ht⟩ : ∃ t, op_insert_obj [1, 2] exSt5W 10 = some t := ⟨_, rfl⟩
  obtain ⟨s₁, hrem, _, _, hparent, hchild, _⟩ :=
    C5_amended_insert_obj exSt5W 1 2 10 t hwf (by decide) (by decide) (by decide)
      (by decide) (by decide) (by decide) ht
  exact ⟨t, ht, s₁, hrem, hparent, hchild⟩

/-- C5 (counterexample): object 1 has no parent but a stale sibling byte 5,
object 2 has no children; after `insert_obj 1 2` the sibling field of
object 1 still reads 5 — not 0, as the claim requires when B has no
children "regardless of whether A previously had a parent". -/
theorem C5_counterexample :
    read_object exSt5.memory (get_object_address exSt5 2) object_child = 0 ∧
    read_object exSt5.memory (get_object_address exSt5 1) object_parent = 0 ∧
    ∃ s', op_insert_obj [1, 2] exSt5 10 = some s' ∧
      read_object s'.memory (get_object_address exSt5 1) object_next = 5 ∧
      read_object s'.memory (get_object_address exSt5 1) object_parent = 2 ∧
      read_object s'.memory (get_object_address exSt5 2) object_child = 1 := by
  exact ⟨by decide, by decide, ⟨_, rfl, by decide, by decide, by decide⟩⟩

theorem read_variable_pres {s : ZMachineSt} {v : Int} {x : Int} {s' : ZMachineSt}
    (h : read_variable s v = .ok (x, s')) :
    s'.instruction_count = s.instruction_count ∧ s'.memory = s.memory := by
  unfold read_variable at h
  split at h
  · split at h
    · cases h
    · split at h
      · injection h with h1; cases h1; exact ⟨rfl, rfl⟩
      · injection h with h1; cases h1; exact ⟨rfl, rfl⟩
  · split at h
    · split at h
      · cases h
      · split at h
        · cases h
        · injection h with h1; cases h1; exact ⟨rfl, rfl⟩
    · injection h with h1; cases h1; exact ⟨rfl, rfl⟩

theorem read_variable_no_exit (s : ZMachineSt) (v : Int) :
    read_variable s v ≠ .error .exit := by
  unfold read_variable
  split
  · split
    · simp
    · split <;> simp
  · split
    · split
      · simp
      · split <;> simp
    · simp

theorem fetchOperands_pres :
    ∀ (ts : List Nat) (s : ZMachineSt) (r : List Int × ZMachineSt),
      fetchOperands ts s = .ok r →
      r.2.instruction_count = s.instruction_count ∧ r.2.memory = s.memory := by
  intro ts
  induction ts with
  | nil => intro s r h; injection h with h1; cases h1; exact ⟨rfl, rfl⟩
  | cons t rest ih =>
    intro s r h
    simp only [fetchOperands] at h
    split at h
    · injection h with h1; cases h1; exact ⟨rfl, rfl⟩
    · split at h
      · cases hr : fetchOperands rest { s with pc := s.pc + 2 } with
        | error e => rw [hr, except_bind_error] at h; cases h
        | ok r' =>
          rw [hr, except_bind_ok] at h
          injection h with h1
          cases h1
          exact ih { s with pc := s.pc + 2 } r' hr
      · split at h
        · cases hr : fetchOperands rest { s with pc := s.pc + 1 } with
          | error e => rw [hr, except_bind_error] at h; cases h
          | ok r' =>
            rw [hr, except_bind_ok] at h
            injection h with h1
            cases h1
            exact ih { s with pc := s.pc + 1 } r' hr
        · cases hv : read_variable { s with pc := s.pc + 1 }
              ((s.memory.read_byte s.pc : Nat) : Int) with
          | error e => rw [hv, except_bind_error] at h; cases h
          | ok vs =>
            rw [hv, except_bind_ok] at h
            cases hr : fetchOperands rest vs.2 with
            | error e => rw [hr, except_bind_error] at h; cases h
            | ok r' =>
              rw [hr, except_bind_ok] at h
              injection h with h1
              cases h1
              have h2 := ih vs.2 r' hr
              have h3 := @read_variable_pres _ _ vs.1 vs.2 (by rw [hv])
              exact ⟨by rw [h2.1, h3.1], by rw [h2.2, h3.2]⟩

theorem fetchOperands_no_exit :
    ∀ (ts : List Nat) (s : ZMachineSt), fetchOperands ts s ≠ .error .exit := by
  intro ts
  induction ts with
  | nil => intro s h; cases h
  | cons t rest ih =>
    intro s h
    simp only [fetchOperands] at h
    split at h
    · cases h
    · split at h
      · cases hr : fetchOperands rest { s with pc := s.pc + 2 } with
        | error e =>
          rw [hr, except_bind_error] at h
          injection h with h1
          exact ih _ (h1 ▸ hr)
        | ok r' => rw [hr, except_bind_ok] at h; cases h
      · split at h
        · cases hr : fetchOperands rest { s with pc := s.pc + 1 } with
          | error e =>
            rw [hr, except_bind_error] at h
            injection h with h1
            exact ih _ (h1 ▸ hr)
          | ok r' => rw [hr, except_bind_ok] at h; cases h
        · cases hv : read_variable { s with pc := s.pc + 1 }
              ((s.memory.read_byte s.pc : Nat) : Int) with
          | error e =>
            rw [hv, except_bind_error] at h
            injection h with h1
            exact read_variable_no_exit _ _ (h1 ▸ hv)
          | ok vs =>
            rw [hv, except_bind_ok] at h
            cases hr : fetchOperands rest vs.2 with
            | error e =>
              rw [hr, except_bind_error] at h
              injection h with h1
              exact ih _ (h1 ▸ hr)
            | ok r' => rw [hr, except_bind_ok] at h; cases h

theorem fetch_instruction_pres {s : ZMachineSt} {r : (Nat × List Int × Nat × Nat) × ZMachineSt}
    (h : fetch_instruction s = .ok r) :
    r.2.instruction_count = s.instruction_count ∧ r.2.memory = s.memory := by
  simp only [fetch_instruction] at h
  split at h
  · cases h
  · split at h
    · cases hr : fetchOperands (extractTypes (s.memory.read_byte (s.pc + 1)))
          { s with pc := s.pc + 1 + 1 } with
      | error e => rw [hr, except_bind_error] at h; cases h
      | ok r' =>
        rw [hr, except_bind_ok] at h
        injection h with h1
        cases h1
        exact fetchOperands_pres _ { s with pc := s.pc + 1 + 1 } _ hr
    · split at h
      · injection h with h1; cases h1; exact ⟨rfl, rfl⟩
      · split at h
        · cases hr : fetchOperands [(s.memory.read_byte s.pc &&& 0x30) >>> 4]
              { s with pc := s.pc + 1 } with
          | error e => rw [hr, except_bind_error] at h; cases h
          | ok r' =>
            rw [hr, except_bind_ok] at h
            injection h with h1
            cases h1
            exact fetchOperands_pres _ { s with pc := s.pc + 1 } _ hr
        · cases hr : fetchOperands
              [if s.memory.read_byte s.pc &&& 0x40 = 0 then 1 else 2,
               if s.memory.read_byte s.pc &&& 0x20 = 0 then 1 else 2]
              { s with pc := s.pc + 1 } with
          | error e => rw [hr, except_bind_error] at h; cases h
          | ok r' =>
            rw [hr, except_bind_ok] at h
            injection h with h1
            cases h1
            exact fetchOperands_pres _ { s with pc := s.pc + 1 } _ hr

theorem fetch_instruction_no_exit (s : ZMachineSt) :
    fetch_instruction s ≠ .error .exit := by
  intro h
  simp only [fetch_instruction] at h
  split at h
  · cases h
  · split at h
    · cases hr : fetchOperands (extractTypes (s.memory.read_byte (s.pc + 1)))
          { s with pc := s.pc + 1 + 1 } with
      | error e =>
        rw [hr, except_bind_error] at h
        injection h with h1
        exact fetchOperands_no_exit _ _ (h1 ▸ hr)
      | ok r' => rw [hr, except_bind_ok] at h; cases h
    · split at h
      · cases h
      · split at h
        · cases hr : fetchOperands [(s.memory.read_byte s.pc &&& 0x30) >>> 4]
              { s with pc := s.pc + 1 } with
          | error e =>
            rw [hr, except_bind_error] at h
            injection h with h1
            exact fetchOperands_no_exit _ _ (h1 ▸ hr)
          | ok r' => rw [hr, except_bind_ok] at h; cases h
        · cases hr : fetchOperands
              [if s.memory.read_byte s.pc &&& 0x40 = 0 then 1 else 2,
               if s.memory.read_byte s.pc &&& 0x20 = 0 then 1 else 2]
              { s with pc := s.pc + 1 } with
          | error e =>
            rw [hr, except_bind_error] at h
            injection h with h1
            exact fetchOperands_no_exit _ _ (h1 ▸ hr)
          | ok r' => rw [hr, except_bind_ok] at h; cases h

/-- C9 (amended): the interpreter's only ways out of `execute_instruction`
that stop stepping altogether are the 3000-instruction limit (checked right
after fetch, before any dispatch, so it fires regardless of what the
instruction would do), an unimplemented opcode, and a handler that calls
`sys.exit`; conversely, whenever the count since start (or the last `sread`
reset) has reached the limit and the fetch itself succeeds, the interpreter
exits — even for a program that neither quits nor faults. -/
theorem C9_amended_instruction_limit (table : Nat → Option Handler) (s : ZMachineSt) :
    (s.instruction_count ≥ maxcount → (∃ r, fetch_instruction s = .ok r) →
      execute_instruction table s = .exited) ∧
    (execute_instruction table s = .exited →
      ∃ r, fetch_instruction s = .ok r ∧
        (r.2.instruction_count + 1 > maxcount ∨
         (∀ h, table (full_opcode_of r.1.1 r.1.2.1 r.1.2.2.1 r.1.2.2.2) = some h →
            h r.1.2.1
              { r.2 with instruction_count := r.2.instruction_count + 1,
                         opcode := full_opcode_of r.1.1 r.1.2.1 r.1.2.2.1 r.1.2.2.2 } =
              .error .exit))) := by
  constructor
  · rintro hcnt ⟨r, hr⟩
    obtain ⟨⟨op, operands, form, ob⟩, s1⟩ := r
    have hc := (fetch_instruction_pres hr).1
    unfold execute_instruction
    rw [hr]
    dsimp only
    rw [if_pos (by dsimp only at hc ⊢; unfold maxcount at hcnt ⊢; omega)]
  · intro hex
    unfold execute_instruction at hex
    cases hf : fetch_instruction s with
    | error e =>
      rw [hf] at hex
      cases e
      · cases hex
      · exact absurd hf (fetch_instruction_no_exit s)
    | ok r =>
      obtain ⟨⟨op, operands, form, ob⟩, s1⟩ := r
      rw [hf] at hex
      dsimp only at hex
      by_cases hcnt : s1.instruction_count + 1 > maxcount
      · exact ⟨((op, operands, form, ob), s1), rfl, Or.inl hcnt⟩
      · rw [if_neg hcnt] at hex
        split at hex
        next h heq =>
          split at hex
          next s4 heq2 => cases hex
          next heq2 => cases hex
          next heq2 =>
            refine ⟨((op, operands, form, ob), s1), rfl, Or.inr ?_⟩
            intro h' hh'
            rw [heq] at hh'
            injection hh' with he
            subst he
            exact heq2
        next heq =>
          refine ⟨((op, operands, form, ob), s1), rfl, Or.inr ?_⟩
          intro h' hh'
          rw [heq] at hh'
          cases hh'

theorem exMem9_size : exMem9.size = 70000 := rfl

/-- The fetch of a `0xBB` (`new_line`) instruction in the all-`0xBB`
memory. -/
theorem nl_fetch {s : ZMachineSt} {k : Nat} (hmem : s.memory = exMem9)
    (hpc : s.pc = 0xBBBB + (k : Int)) (hk : k ≤ maxcount) :
    fetch_instruction s = .ok ((0x3B, [], 1, 0xBB), { s with pc := s.pc + 1 }) := by
  have hrb : s.memory.read_byte s.pc = 0xBB := by
    rw [hmem, hpc]
    unfold exMem9 Mem.read_byte Mem.atIdx
    rw [if_pos (by norm_num; unfold maxcount at hk; omega), if_pos (by positivity)]
  have h1 : (0xBB : Nat) &&& 63 = 59 := by decide
  have hsz : exMem9.size = 70000 := rfl
  have hlt : ¬ s.pc ≥ (s.memory.size : Int) := by
    rw [hmem, hpc, hsz]
    unfold maxcount at hk
    push_cast
    omega
  simp only [fetch_instruction]
  rw [if_neg hlt, hrb]
  norm_num [h1]

/-- One `new_line` step of the all-`0xBB` program below the instruction
limit. -/
theorem nl_step {s : ZMachineSt} {k : Nat} (hmem : s.memory = exMem9)
    (hpc : s.pc = 0xBBBB + (k : Int)) (hcnt : s.instruction_count = k)
    (hk : k < maxcount) :
    ∃ s', execute_instruction table_nl s = .ok s' ∧
      s'.memory = exMem9 ∧ s'.pc = 0xBBBB + ((k + 1 : Nat) : Int) ∧
      s'.instruction_count = k + 1 ∧ s'.game_running = s.game_running := by
  have hfetch := nl_fetch hmem hpc (by omega)
  unfold execute_instruction
  rw [hfetch]
  dsimp only
  rw [if_neg (by unfold maxcount at hk ⊢; omega)]
  have ht : table_nl (full_opcode_of 0x3B [] 1 0xBB) = some op_new_line := rfl
  rw [ht]
  refine ⟨_, rfl, ?_, ?_, ?_, ?_⟩ <;>
    simp [op_new_line, ZMachineSt.print_text, hmem, hpc, hcnt] <;> push_cast <;> ring

/-- Running the all-`0xBB` program from instruction count `k`,
`maxcount − k` more steps reach the limit and `sys.exit` the interpreter. -/
theorem nl_loop : ∀ (n k : Nat) (s : ZMachineSt), k + n = maxcount →
    s.memory = exMem9 → s.pc = 0xBBBB + (k : Int) → s.instruction_count = k →
    s.game_running = true →
    execute_game_loop table_nl (n + 1) s = .exited := by
  intro n
  induction n with
  | zero =>
    intro k s hkn hmem hpc hcnt hrun
    have hfetch := nl_fetch hmem hpc (by omega)
    show execute_game_loop table_nl (0 + 1) s = .exited
    simp only [execute_game_loop]
    rw [if_pos ⟨by simp [hrun],
      by rw [hmem, hpc, exMem9_size]; push_cast; unfold maxcount at hkn; omega⟩]
    have hex : execute_instruction table_nl s = .exited := by
      unfold execute_instruction
      rw [hfetch]
      dsimp only
      rw [if_pos (by unfold maxcount at hkn ⊢; omega)]
    rw [hex]
  | succ n ih =>
    intro k s hkn hmem hpc hcnt hrun
    obtain ⟨s', hstep, hm, hp, hc, hr⟩ := nl_step hmem hpc hcnt (by omega)
    show execute_game_loop table_nl (n + 1 + 1) s = .exited
    simp only [execute_game_loop]
    rw [if_pos ⟨by simp [hrun],
      by rw [hmem, hpc, exMem9_size]; push_cast; unfold maxcount at hkn; omega⟩, hstep]
    exact ih (k + 1) s' (by omega) hm hp hc (hr.trans hrun)

/-- C9 (counterexample): the all-`0xBB` program only prints newlines — it
never quits and never faults — yet the run loop terminates the interpreter
(`sys.exit` from the 3000-instruction limit) within 3001 iterations. -/
theorem C9_counterexample :
    (exSt9 0).game_running = true ∧
    table_nl 0x3B = some op_new_line ∧
    execute_game_loop table_nl 3001 (exSt9 0) = .exited := by
  refine ⟨rfl, rfl, ?_⟩
  have h := nl_loop 3000 0 (exSt9 0) (by norm_num [maxcount]) rfl (by norm_num [exSt9]) rfl rfl
  simpa using h

/-- Witness for C9's amended theorem: at instruction count 3000 with a
fetchable instruction, the next `execute_instruction` exits. -/
theorem C9_witness : execute_instruction table_nl (exSt9 3000) = .exited := by
  refine (C9_amended_instruction_limit table_nl (exSt9 3000)).1 (by norm_num [exSt9, maxcount])
    ⟨((0x3B, [], 1, 0xBB), { exSt9 3000 with pc := (exSt9 3000).pc + 1 }), ?_⟩
  exact @nl_fetch (exSt9 3000) 3000 rfl rfl (by norm_num [maxcount])

/-! Save/restore helper lemmas. -/

theorem fromBytes_pair (a b : Nat) : fromBytes [a, b] = a * 256 + b := by
  simp [fromBytes]

theorem fromBytes_single (a : Nat) : fromBytes [a] = a := by
  simp [fromBytes]

theorem fromBytes_split (n : Nat) : fromBytes [n / 256, n % 256] = n := by
  rw [fromBytes_pair]; omega

theorem toBytes2_ok_eq {v : Int} (h0 : 0 ≤ v) (h1 : v < 65536) :
    toBytes2 v = .ok [v.toNat / 256, v.toNat % 256] := by
  unfold toBytes2; rw [if_pos ⟨h0, h1⟩]

theorem toBytes1_ok_eq {v : Nat} (h : v < 256) : toBytes1 v = .ok [v] := by
  unfold toBytes1; rw [if_pos h]

theorem getD_cons5 {α : Type} (a b c d e : α) (l : List α) (k : Nat) (x : α) :
    (a :: b :: c :: d :: e :: l).getD (5 + k) x = l.getD k x := by
  rw [show 5 + k = k + 1 + 1 + 1 + 1 + 1 from by ring]
  simp [List.getD_cons_succ]

theorem serializeWords_spec : ∀ {ws : List Int}, (∀ v ∈ ws, 0 ≤ v ∧ v < 65536) →
    ∃ bs, serializeWords ws = .ok bs ∧ bs.length = 2 * ws.length ∧
      ∀ i, i < ws.length →
        bs.getD (2 * i) 0 = (ws.getD i 0).toNat / 256 ∧
        bs.getD (2 * i + 1) 0 = (ws.getD i 0).toNat % 256 := by
  intro ws
  induction ws with
  | nil => exact fun _ => ⟨[], rfl, rfl, fun i hi => absurd hi (by simp)⟩
  | cons v rest ih =>
    intro h
    obtain ⟨hv0, hv1⟩ := h v (List.mem_cons_self _ _)
    obtain ⟨bs', h1, h2, h3⟩ := ih (fun w hw => h w (List.mem_cons_of_mem _ hw))
    refine ⟨v.toNat / 256 :: v.toNat % 256 :: bs', ?_, ?_, ?_⟩
    · simp only [serializeWords, toBytes2_ok_eq hv0 hv1, h1, except_bind_ok]
      rfl
    · simp only [List.length_cons]
      omega
    · intro i hi
      cases i with
      | zero => exact ⟨rfl, rfl⟩
      | succ j =>
        have hj : j < rest.length := by simpa using hi
        obtain ⟨ha, hb⟩ := h3 j hj
        constructor
        · rw [show 2 * (j + 1) = 2 * j + 1 + 1 from by ring]
          simp only [List.getD_cons_succ]
          exact ha
        · rw [show 2 * (j + 1) + 1 = 2 * j + 1 + 1 + 1 from by ring]
          simp only [List.getD_cons_succ]
          exact hb

theorem range_map_getD {α : Type} (d : α) :
    ∀ (l : List α), (List.range l.length).map (fun i => l.getD i d) = l := by
  intro l
  induction l with
  | nil => rfl
  | cons a t ih =>
    rw [List.length_cons, List.range_succ_eq_map, List.map_cons, List.map_map]
    have hc : ((fun i => (a :: t).getD i d) ∘ Nat.succ) = (fun i => t.getD i d) :=
      funext fun i => List.getD_cons_succ
    rw [hc, ih]
    rfl

/-- `Frame.unserialize` after `Frame.serialize` recovers every serialized
field of a well-formed frame (the record is `37 + 2·depth` bytes). -/
theorem frame_roundtrip {f : Frame} (h : FrameWf f) :
    ∃ data, Frame.serialize f = .ok data ∧
      data.length = 37 + 2 * f.data_stack.length ∧
      FrameMatch (Frame.unserialize data) f := by
  obtain ⟨hrp0, hrp1, hrv, hac, hcnt, hlen, hlv, hds, hdb⟩ := h
  obtain ⟨Lbs, hL1, hL2, hL3⟩ := serializeWords_spec hlv
  obtain ⟨Sbs, hS1, hS2, hS3⟩ := serializeWords_spec hds
  have hd0 : (0 : Int) ≤ (f.data_stack.length : Int) := by positivity
  have hd1 : (f.data_stack.length : Int) < 65536 := by exact_mod_cast (by omega)
  have hni : ((f.data_stack.length : Int)).toNat = f.data_stack.length := by omega
  refine ⟨f.return_pointer.toNat / 256 :: f.return_pointer.toNat % 256 ::
      f.result_var :: f.arg_count :: f.count ::
      (Lbs ++ (f.data_stack.length / 256 :: f.data_stack.length % 256 :: Sbs)), ?_, ?_, ?_⟩
  · simp only [Frame.serialize, toBytes2_ok_eq hrp0 hrp1, toBytes1_ok_eq hrv,
      toBytes1_ok_eq hac, toBytes1_ok_eq hcnt, hL1, toBytes2_ok_eq hd0 hd1, hS1,
      except_bind_ok, hni]
    simp only [List.append_assoc]
    rfl
  · simp only [List.length_cons, List.length_append]
    omega
  · have hacc : ∀ k, k < 30 →
        (f.return_pointer.toNat / 256 :: f.return_pointer.toNat % 256 ::
          f.result_var :: f.arg_count :: f.count ::
          (Lbs ++ (f.data_stack.length / 256 :: f.data_stack.length % 256 :: Sbs))).getD
            (5 + k) 0 = Lbs.getD k 0 := by
      intro k hk
      rw [getD_cons5]
      exact List.getD_append _ _ _ _ (by omega)
    have hacc2 : ∀ k,
        (f.return_pointer.toNat / 256 :: f.return_pointer.toNat % 256 ::
          f.result_var :: f.arg_count :: f.count ::
          (Lbs ++ (f.data_stack.length / 256 :: f.data_stack.length % 256 :: Sbs))).getD
            (5 + (30 + k)) 0 =
          (f.data_stack.length / 256 :: f.data_stack.length % 256 :: Sbs).getD k 0 := by
      intro k
      rw [getD_cons5]
      rw [List.getD_append_right _ _ _ _ (by omega)]
      congr 1
      omega
    have hwl : ∀ i, i < 15 →
        wordAt (f.return_pointer.toNat / 256 :: f.return_pointer.toNat % 256 ::
          f.result_var :: f.arg_count :: f.count ::
          (Lbs ++ (f.data_stack.length / 256 :: f.data_stack.length % 256 :: Sbs)))
          (5 + 2 * i) = (f.local_vars.getD i 0).toNat := by
      intro i hi
      obtain ⟨ha, hb⟩ := hL3 i (by omega)
      unfold wordAt
      rw [show 5 + 2 * i + 1 = 5 + (2 * i + 1) from by ring]
      rw [hacc (2 * i) (by omega), hacc (2 * i + 1) (by omega), ha, hb]
      exact fromBytes_split _
    have hw35 : wordAt (f.return_pointer.toNat / 256 :: f.return_pointer.toNat % 256 ::
        f.result_var :: f.arg_count :: f.count ::
        (Lbs ++ (f.data_stack.length / 256 :: f.data_stack.length % 256 :: Sbs))) 35 =
        f.data_stack.length := by
      unfold wordAt
      rw [show (35 : Nat) = 5 + (30 + 0) from by omega, hacc2 0]
      rw [show 5 + (30 + 0) + 1 = 5 + (30 + 1) from by omega, hacc2 1]
      exact fromBytes_split _
    have hws : ∀ i, i < f.data_stack.length →
        wordAt (f.return_pointer.toNat / 256 :: f.return_pointer.toNat % 256 ::
          f.result_var :: f.arg_count :: f.count ::
          (Lbs ++ (f.data_stack.length / 256 :: f.data_stack.length % 256 :: Sbs)))
          (37 + 2 * i) = (f.data_stack.getD i 0).toNat := by
      intro i hi
      obtain ⟨ha, hb⟩ := hS3 i hi
      unfold wordAt
      rw [show 37 + 2 * i = 5 + (30 + (2 * i + 1 + 1)) from by ring, hacc2]
      rw [show 5 + (30 + (2 * i + 1 + 1)) + 1 = 5 + (30 + (2 * i + 1 + 1 + 1)) from by ring,
        hacc2]
      simp only [List.getD_cons_succ]
      rw [ha, hb]
      exact fromBytes_split _
    refine ⟨?_, rfl, rfl, rfl, ?_, ?_⟩
    · show ((wordAt _ 0 : Nat) : Int) = f.return_pointer
      rw [show (0 : Nat) = 5 - 5 from rfl]
      unfold wordAt
      rw [show ((5 : Nat) - 5) = 0 from rfl]
      show ((fromBytes [f.return_pointer.toNat / 256, f.return_pointer.toNat % 256] : Nat) :
        Int) = f.return_pointer
      rw [fromBytes_split]
      exact Int.toNat_of_nonneg hrp0
    · show (List.range 15).map (fun i =>
        ((wordAt (f.return_pointer.toNat / 256 :: f.return_pointer.toNat % 256 ::
          f.result_var :: f.arg_count :: f.count ::
          (Lbs ++ (f.data_stack.length / 256 :: f.data_stack.length % 256 :: Sbs)))
          (5 + 2 * i) : Nat) : Int)) = f.local_vars
      have : ∀ i ∈ List.range 15,
          ((wordAt (f.return_pointer.toNat / 256 :: f.return_pointer.toNat % 256 ::
            f.result_var :: f.arg_count :: f.count ::
            (Lbs ++ (f.data_stack.length / 256 :: f.data_stack.length % 256 :: Sbs)))
            (5 + 2 * i) : Nat) : Int) = f.local_vars.getD i 0 := by
        intro i hi
        have hi15 : i < 15 := List.mem_range.mp hi
        rw [hwl i hi15]
        have hm : f.local_vars.getD i 0 ∈ f.local_vars := by
          rw [List.getD_eq_getElem f.local_vars 0 (by omega)]
          exact List.getElem_mem _
        exact Int.toNat_of_nonneg (hlv _ hm).1
      rw [List.map_congr_left this, ← hlen]
      exact range_map_getD 0 f.local_vars
    · show (List.range (wordAt (f.return_pointer.toNat / 256 ::
        f.return_pointer.toNat % 256 :: f.result_var :: f.arg_count :: f.count ::
        (Lbs ++ (f.data_stack.length / 256 :: f.data_stack.length % 256 :: Sbs))) 35)).map
        (fun i =>
          ((wordAt (f.return_pointer.toNat / 256 :: f.return_pointer.toNat % 256 ::
            f.result_var :: f.arg_count :: f.count ::
            (Lbs ++ (f.data_stack.length / 256 :: f.data_stack.length % 256 :: Sbs)))
            (37 + 2 * i) : Nat) : Int)) = f.data_stack
      rw [hw35]
      have : ∀ i ∈ List.range f.data_stack.length,
          ((wordAt (f.return_pointer.toNat / 256 :: f.return_pointer.toNat % 256 ::
            f.result_var :: f.arg_count :: f.count ::
            (Lbs ++ (f.data_stack.length / 256 :: f.data_stack.length % 256 :: Sbs)))
            (37 + 2 * i) : Nat) : Int) = f.data_stack.getD i 0 := by
        intro i hi
        have hilen : i < f.data_stack.length := List.mem_range.mp hi
        rw [hws i hilen]
        have hm : f.data_stack.getD i 0 ∈ f.data_stack := by
          rw [List.getD_eq_getElem f.data_stack 0 hilen]
          exact List.getElem_mem _
        exact Int.toNat_of_nonneg (hds _ hm).1
      rw [List.map_congr_left this]
      exact range_map_getD 0 f.data_stack

theorem parseFrames_cons (n : Nat) (l0 l1 : Nat) (data rest : List Nat)
    (hl : l0 * 256 + l1 = data.length) :
    parseFrames (n + 1) (l0 :: l1 :: (data ++ rest)) =
      (Frame.unserialize data :: (parseFrames n rest).1, (parseFrames n rest).2) := by
  simp only [parseFrames]
  rw [show (l0 :: l1 :: (data ++ rest)).take 2 = [l0, l1] from rfl]
  rw [show (l0 :: l1 :: (data ++ rest)).drop 2 = data ++ rest from rfl]
  rw [fromBytes_pair, hl, List.take_left, List.drop_left]

/-- Serializing a stack of well-formed frames produces a stream that
`parseFrames` splits back into records matching the originals, leaving any
trailing bytes untouched. -/
theorem serializeFrames_roundtrip : ∀ {fs : List Frame}, (∀ f ∈ fs, FrameWf f) →
    ∃ bs, serializeFrames fs = .ok bs ∧
      ∀ tail, ∃ fs', parseFrames fs.length (bs ++ tail) = (fs', tail) ∧
        List.Forall₂ FrameMatch fs' fs := by
  intro fs
  induction fs with
  | nil => exact fun _ => ⟨[], rfl, fun tail => ⟨[], by simp [parseFrames], List.Forall₂.nil⟩⟩
  | cons f rest ih =>
    intro h
    obtain ⟨data, hd1, hd2, hd3⟩ := frame_roundtrip (h f (List.mem_cons_self _ _))
    obtain ⟨bs', hb1, hb2⟩ := ih (fun g hg => h g (List.mem_cons_of_mem _ hg))
    have hdb : 37 + 2 * f.data_stack.length < 65536 :=
      (h f (List.mem_cons_self _ _)).2.2.2.2.2.2.2.2
    have hdl0 : (0 : Int) ≤ (data.length : Int) := by positivity
    have hdl1 : (data.length : Int) < 65536 := by
      rw [hd2]; exact_mod_cast hdb
    have hni : ((data.length : Int)).toNat = data.length := by omega
    refine ⟨data.length / 256 :: data.length % 256 :: (data ++ bs'), ?_, ?_⟩
    · simp only [serializeFrames]
      rw [hd1, except_bind_ok, toBytes2_ok_eq hdl0 hdl1, except_bind_ok, hb1,
        except_bind_ok, hni]
      rfl
    · intro tail
      obtain ⟨fs', hp, hf⟩ := hb2 tail
      refine ⟨Frame.unserialize data :: fs', ?_, List.Forall₂.cons hd3 hf⟩
      show parseFrames (rest.length + 1)
        ((data.length / 256 :: data.length % 256 :: (data ++ bs')) ++ tail) = _
      rw [List.cons_append, List.cons_append, List.append_assoc]
      rw [parseFrames_cons rest.length (data.length / 256) (data.length % 256) data
        (bs' ++ tail) (by omega)]
      rw [hp]

/-- `restore_game` on a byte stream of exactly the shape `save_game` emits:
magic, version byte, big-endian PC, big-endian memory-chunk size, the chunk,
big-endian frame count, frame records. -/
theorem restore_on_save_shape (t : ZMachineSt) (zv p0 p1 m0 m1 c0 c1 : Nat)
    (memBytes fbs : List Nat) (hzv : zv = t.z_version)
    (hmlen : m0 * 256 + m1 = memBytes.length) :
    restore_game_bytes t
      (90 :: 83 :: 65 :: 86 :: zv :: p0 :: p1 :: m0 :: m1 ::
        (memBytes ++ (c0 :: c1 :: fbs))) =
      .ok { t with pc := ((p0 * 256 + p1 : Nat) : Int),
                   memory := spliceMem t.memory (m0 * 256 + m1) memBytes,
                   call_stack := (parseFrames (c0 * 256 + c1) fbs).1.reverse } := by
  simp only [restore_game_bytes]
  rw [show (90 :: 83 :: 65 :: 86 :: zv :: p0 :: p1 :: m0 :: m1 ::
      (memBytes ++ (c0 :: c1 :: fbs))).take 4 = [90, 83, 65, 86] from rfl]
  rw [if_neg (by simp)]
  rw [show (90 :: 83 :: 65 :: 86 :: zv :: p0 :: p1 :: m0 :: m1 ::
      (memBytes ++ (c0 :: c1 :: fbs))).drop 4 =
      zv :: p0 :: p1 :: m0 :: m1 :: (memBytes ++ (c0 :: c1 :: fbs)) from rfl]
  rw [show (zv :: p0 :: p1 :: m0 :: m1 :: (memBytes ++ (c0 :: c1 :: fbs))).take 1 =
      [zv] from rfl, fromBytes_single]
  rw [if_neg (by simp [hzv])]
  rw [show (zv :: p0 :: p1 :: m0 :: m1 :: (memBytes ++ (c0 :: c1 :: fbs))).drop 1 =
      p0 :: p1 :: m0 :: m1 :: (memBytes ++ (c0 :: c1 :: fbs)) from rfl]
  rw [show (p0 :: p1 :: m0 :: m1 :: (memBytes ++ (c0 :: c1 :: fbs))).take 2 =
      [p0, p1] from rfl, fromBytes_pair]
  rw [show (p0 :: p1 :: m0 :: m1 :: (memBytes ++ (c0 :: c1 :: fbs))).drop 2 =
      m0 :: m1 :: (memBytes ++ (c0 :: c1 :: fbs)) from rfl]
  rw [show (m0 :: m1 :: (memBytes ++ (c0 :: c1 :: fbs))).take 2 = [m0, m1] from rfl,
    fromBytes_pair]
  rw [show (m0 :: m1 :: (memBytes ++ (c0 :: c1 :: fbs))).drop 2 =
      memBytes ++ (c0 :: c1 :: fbs) from rfl]
  rw [hmlen, List.take_left, List.drop_left]
  rw [show (c0 :: c1 :: fbs).take 2 = [c0, c1] from rfl, fromBytes_pair]
  rw [show (c0 :: c1 :: fbs).drop 2 = fbs from rfl]

/-- C2 (amended): for a state whose PC fits in 16 bits, whose dynamic-memory
size (the word at `0x0E`) is within the loaded memory, and whose call stack
is made of well-formed frames (the invariant the interpreter maintains),
`save_game` succeeds and `restore_game` of the produced bytes — run from any
state with the same story version — succeeds and restores exactly the PC, the
first `mem_size` memory bytes, and every serialized frame field (return PC,
result variable, argument count, locals count, the 15 locals, and the
evaluation stack).  For a PC at or above `0x10000` the save itself fails
(`to_bytes(2)` overflows), so the claim's "every VM state" is too strong. -/
theorem C2_amended_save_restore (s t : ZMachineSt)
    (hver : t.z_version = s.z_version)
    (hv : s.z_version < 256)
    (hpc0 : 0 ≤ s.pc) (hpc1 : s.pc < 65536)
    (hms1 : s.memory.read_word 0x0e < 65536)
    (hms2 : s.memory.read_word 0x0e ≤ s.memory.size)
    (hcnt : s.call_stack.length < 65536)
    (hfs : ∀ f ∈ s.call_stack, FrameWf f) :
    ∃ bytes s₂, save_game_bytes s = .ok bytes ∧
      restore_game_bytes t bytes = .ok s₂ ∧
      s₂.pc = s.pc ∧
      (∀ i, i < s.memory.read_word 0x0e → s₂.memory.get i = s.memory.get i) ∧
      List.Forall₂ FrameMatch s₂.call_stack s.call_stack := by
  obtain ⟨fbs, hf1, hf2⟩ :=
    @serializeFrames_roundtrip s.call_stack.reverse
      (fun g hg => hfs g (List.mem_reverse.mp hg))
  obtain ⟨fs', hp, hmatch⟩ := hf2 []
  rw [List.append_nil] at hp
  have hmsi0 : (0 : Int) ≤ ((s.memory.read_word 0x0e : Nat) : Int) := by positivity
  have hmsi1 : ((s.memory.read_word 0x0e : Nat) : Int) < 65536 := by exact_mod_cast hms1
  have hcnt0 : (0 : Int) ≤ ((s.call_stack.length : Nat) : Int) := by positivity
  have hcnt1 : ((s.call_stack.length : Nat) : Int) < 65536 := by exact_mod_cast hcnt
  have hmb : ((List.range (min (s.memory.read_word 0x0e) s.memory.size)).map
      s.memory.get).length = s.memory.read_word 0x0e := by
    rw [List.length_map, List.length_range, Nat.min_eq_left hms2]
  refine ⟨90 :: 83 :: 65 :: 86 :: s.z_version :: s.pc.toNat / 256 :: s.pc.toNat % 256 ::
      ((s.memory.read_word 0x0e : Int)).toNat / 256 ::
      ((s.memory.read_word 0x0e : Int)).toNat % 256 ::
      (((List.range (min (s.memory.read_word 0x0e) s.memory.size)).map s.memory.get) ++
        (((s.call_stack.length : Int)).toNat / 256 ::
         ((s.call_stack.length : Int)).toNat % 256 :: fbs)),
    { t with
      pc := ((s.pc.toNat / 256 * 256 + s.pc.toNat % 256 : Nat) : Int),
      memory := spliceMem t.memory
        (((s.memory.read_word 0x0e : Int)).toNat / 256 * 256 +
          ((s.memory.read_word 0x0e : Int)).toNat % 256)
        ((List.range (min (s.memory.read_word 0x0e) s.memory.size)).map s.memory.get),
      call_stack := (parseFrames (((s.call_stack.length : Int)).toNat / 256 * 256 +
        ((s.call_stack.length : Int)).toNat % 256) fbs).1.reverse },
    ?_, ?_, ?_, ?_, ?_⟩
  · simp only [save_game_bytes, toBytes1_ok_eq hv, toBytes2_ok_eq hpc0 hpc1,
      toBytes2_ok_eq hmsi0 hmsi1, toBytes2_ok_eq hcnt0 hcnt1, hf1, except_bind_ok]
    simp only [List.append_assoc]
    rfl
  · exact restore_on_save_shape t s.z_version _ _ _ _ _ _ _ fbs hver.symm (by rw [hmb]; omega)
  · show ((s.pc.toNat / 256 * 256 + s.pc.toNat % 256 : Nat) : Int) = s.pc
    rw [show s.pc.toNat / 256 * 256 + s.pc.toNat % 256 = s.pc.toNat from by omega]
    exact Int.toNat_of_nonneg hpc0
  · intro i hi
    show (spliceMem t.memory _ _).get i = s.memory.get i
    simp only [spliceMem]
    rw [if_pos (by rw [hmb]; omega)]
    rw [List.getD_eq_getElem _ _ (by rw [hmb]; omega)]
    simp [List.getElem_map, List.getElem_range]
  · show List.Forall₂ FrameMatch (parseFrames (((s.call_stack.length : Int)).toNat / 256 * 256 +
      ((s.call_stack.length : Int)).toNat % 256) fbs).1.reverse s.call_stack
    rw [List.length_reverse] at hp
    rw [show ((s.call_stack.length : Int)).toNat / 256 * 256 +
      ((s.call_stack.length : Int)).toNat % 256 = s.call_stack.length from by omega, hp]
    have h2 := List.forall₂_reverse_iff.mpr hmatch
    rwa [List.reverse_reverse] at h2

/-- C2 (counterexample): a reachable PC need not fit in two bytes (routines
can live above 0x10000 in a 128K story); at `pc = 0x10000` the save itself
fails — `pc.to_bytes(2)` raises `OverflowError` — so "for every VM state,
save then restore succeeds" is false. -/
theorem C2_counterexample : save_game_bytes { exSt2 with pc := 0x10000 } = .error .exn := by
  rfl

/-- Witness for C2's amended theorem: a concrete two-frame state
round-trips. -/
theorem C2_amended_witness :
    ∃ bytes s₂, save_game_bytes exSt2 = .ok bytes ∧
      restore_game_bytes exSt2 bytes = .ok s₂ ∧
      s₂.pc = exSt2.pc ∧
      (∀ i, i < exSt2.memory.read_word 0x0e → s₂.memory.get i = exSt2.memory.get i) ∧
      List.Forall₂ FrameMatch s₂.call_stack exSt2.call_stack :=
  C2_amended_save_restore exSt2 exSt2 rfl (by decide) (by decide) (by decide)
    (by decide) (by decide) (by decide) (by decide)

/-! Tokenizer helper lemmas. -/

theorem except_bind_ok_inv {ε α β : Type} {x : Except ε α} {f : α → Except ε β} {b : β}
    (h : (x >>= f) = .ok b) : ∃ a, x = .ok a ∧ f a = .ok b := by
  cases x with
  | error e => cases h
  | ok a => exact ⟨a, rfl, h⟩

theorem entryLoop_size {dsize doff : Nat} {tb : Int} {chop es mt : Nat} {buff : List Nat} :
    ∀ {tokens : List (List Nat)} {m : Mem} {words : Nat} {m' : Mem} {w' : Nat},
      entryLoop dsize doff tb chop es mt buff tokens m words = .ok (m', w') →
      m'.size = m.size := by
  intro tokens
  induction tokens with
  | nil =>
    intro m words m' w' h
    simp only [entryLoop, Except.ok.injEq, Prod.mk.injEq] at h
    rw [← h.1]
  | cons token rest ih =>
    intro m words m' w' h
    simp only [entryLoop] at h
    cases hfw : find_word m dsize doff token chop es with
    | error e => rw [hfw, except_bind_error] at h; cases h
    | ok word =>
      rw [hfw, except_bind_ok] at h
      split at h
      · rw [ih h]
        simp [Mem.write_byte_size]
      · exact ih h

/-- The entry-writing loop admits one entry more than the declared capacity:
the guard is `words <= max_tokens`, so the final count is
`min (words₀ + #tokens) (max_tokens + 1)`. -/
theorem entryLoop_count {dsize doff : Nat} {tb : Int} {chop es mt : Nat} {buff : List Nat} :
    ∀ {tokens : List (List Nat)} {m : Mem} {words : Nat} {m' : Mem} {w' : Nat},
      words ≤ mt + 1 →
      entryLoop dsize doff tb chop es mt buff tokens m words = .ok (m', w') →
      w' = min (words + tokens.length) (mt + 1) := by
  intro tokens
  induction tokens with
  | nil =>
    intro m words m' w' hw h
    simp only [entryLoop, Except.ok.injEq, Prod.mk.injEq] at h
    simp only [List.length_nil]
    omega
  | cons token rest ih =>
    intro m words m' w' hw h
    simp only [entryLoop] at h
    cases hfw : find_word m dsize doff token chop es with
    | error e => rw [hfw, except_bind_error] at h; cases h
    | ok word =>
      rw [hfw, except_bind_ok] at h
      split at h
      next hle =>
        have hres := ih (by omega) h
        simp only [List.length_cons]
        omega
      next hgt =>
        have hres := ih (by omega) h
        simp only [List.length_cons]
        omega

/-- C4 (amended): when `tokenize_line` returns normally and the two
count bytes of the parse buffer are inside memory, the final memory is the
loop memory plus exactly two writes: the parse buffer's first byte is
OVERWRITTEN with the constant 59 (the capacity byte is not preserved), and
the second byte receives the token count modulo 256, where the count is
`min (#tokens) (capacity + 1)` — the loop guard `words <= max_tokens` admits
one entry more than the declared capacity.  Each round of the loop that is
under the guard writes the 4-byte entry
`(dict_addr >> 8, dict_addr & 0xFF, token length, buff.find(token))` at
`token_buf + 2 + 4*words`, with `dict_addr = 0` when `find_word` misses. -/
theorem C4_amended_tokenize (s : ZMachineSt) (char_buf token_buf dictionary : Int)
    (s' : ZMachineSt) (h0 : 0 ≤ token_buf) (hsz : token_buf + 1 < (s.memory.size : Int))
    (hok : tokenize_line s char_buf token_buf dictionary = .ok s') :
    let slen := scanZero s.memory char_buf 0 (s.memory.size + 1)
    let buff := (List.range slen).map (fun i => s.memory.read_byte (char_buf + (i : Int)))
    let dictp := s.memory.read_word dictionary
    let count := s.memory.read_byte (dictp : Int)
    let dictp := dictp + 1
    let delims := (List.range count).map (fun i => s.memory.read_byte ((dictp : Int) + (i : Int)))
    let dictp := dictp + count
    let entry_size := s.memory.read_byte (dictp : Int)
    let dictp := dictp + 1
    let dsize := s.memory.read_word (dictp : Int)
    let doff := dictp + 2
    let delims := delims ++ [32, 9, 10, 13, 12, 46, 44, 63]
    let chop := calcChop dsize
    let max_tokens := s.memory.read_byte token_buf
    let tokens := splitTokens delims buff
    ∃ m₁ w,
      entryLoop dsize doff token_buf chop entry_size max_tokens buff tokens s.memory 0 =
        .ok (m₁, w) ∧
      w = min tokens.length (max_tokens + 1) ∧
      s'.memory.read_byte token_buf = 59 ∧
      s'.memory.read_byte (token_buf + 1) = w % 256 ∧
      (∀ a : Int, 0 ≤ a → a ≠ token_buf → a ≠ token_buf + 1 →
        s'.memory.read_byte a = m₁.read_byte a) ∧
      (∀ (token : List Nat) (rest : List (List Nat)) (m : Mem) (words word : Nat),
        find_word m dsize doff token chop entry_size = .ok word → words ≤ max_tokens →
        entryLoop dsize doff token_buf chop entry_size max_tokens buff (token :: rest)
            m words =
          entryLoop dsize doff token_buf chop entry_size max_tokens buff rest
            ((((m.write_byte (2 + token_buf + (words : Int) * 4 + 0)
                  ((word >>> 8 : Nat) : Int)).write_byte
                (2 + token_buf + (words : Int) * 4 + 1) ((word &&& 0xff : Nat) : Int)).write_byte
                (2 + token_buf + (words : Int) * 4 + 2) (token.length : Int)).write_byte
                (2 + token_buf + (words : Int) * 4 + 3) (pyFind buff token))
            (words + 1)) := by
  simp only [tokenize_line] at hok
  split at hok
  · exact absurd hok (by simp)
  obtain ⟨mw, hE, hrest⟩ := except_bind_ok_inv hok
  obtain ⟨m₁, w⟩ := mw
  injection hrest with hs
  subst hs
  have hsize : m₁.size = s.memory.size := entryLoop_size hE
  refine ⟨m₁, w, hE, ?_, ?_, ?_, ?_, ?_⟩
  · have hcnt := entryLoop_count (by omega) hE
    rw [Nat.zero_add] at hcnt
    exact hcnt
  · show ((m₁.write_byte token_buf 59).write_byte (token_buf + 1)
      ((w : Nat) : Int)).read_byte token_buf = 59
    rw [Mem.read_byte_write_byte _ _ (by omega) h0,
      if_neg (fun hc => absurd hc.1 (by omega)),
      Mem.read_byte_write_byte _ _ h0 h0,
      if_pos ⟨rfl, by rw [hsize]; omega⟩]
    decide
  · show ((m₁.write_byte token_buf 59).write_byte (token_buf + 1)
      ((w : Nat) : Int)).read_byte (token_buf + 1) = w % 256
    rw [Mem.read_byte_write_byte _ _ (by omega) (by omega),
      if_pos ⟨rfl, by rw [Mem.write_byte_size, hsize]; omega⟩]
    omega
  · intro a ha ha1 ha2
    show ((m₁.write_byte token_buf 59).write_byte (token_buf + 1)
      ((w : Nat) : Int)).read_byte a = m₁.read_byte a
    rw [Mem.read_byte_write_byte _ _ (by omega) ha,
      if_neg (fun hc => absurd hc.1 ha2),
      Mem.read_byte_write_byte _ _ h0 ha,
      if_neg (fun hc => absurd hc.1 ha1)]
  · intro token rest m words word hfw hle
    simp only [entryLoop]
    rw [hfw, except_bind_ok, if_pos hle]

/-- C4 (counterexample): a parse buffer declaring a max-token capacity of 0
still receives one token entry (`words <= max_tokens` admits capacity + 1
entries), and its capacity byte is overwritten with the constant 59 — both
against the claim that the count never exceeds the capacity and that the
capacity byte is left unchanged. -/
theorem C4_counterexample :
    ∃ s', tokenize_line exSt4 40 50 8 = .ok s' ∧
      exSt4.memory.read_byte 50 = 0 ∧
      s'.memory.read_byte 50 = 59 ∧
      s'.memory.read_byte 51 = 1 := by
  refine ⟨_, rfl, ?_, ?_, ?_⟩ <;> decide

/-- Witness for C4's amended theorem at the one-token, capacity-0 state. -/
theorem C4_amended_witness :
    ∃ s' m₁ w,
      tokenize_line exSt4 40 50 8 = .ok s' ∧
      entryLoop 1 24 50 2 7 0 [97] [[97]] exSt4.memory 0 = .ok (m₁, w) ∧
      w = 1 ∧
      s'.memory.read_byte 50 = 59 ∧
      s'.memory.read_byte (50 + 1) = w % 256 := by
  obtain ⟨m₁, w, h1, h2, h3, h4, h5, h6⟩ :=
    C4_amended_tokenize exSt4 40 50 8 _ (by decide) (by decide) rfl
  exact ⟨_, m₁, w, rfl, h1, h2.trans (by decide), h3, h4⟩

end CPZ
